import Mathlib

/-!
Verification of the disaster-simulation coordination core.

This file shallowly embeds the Python backend (message bus, environment
state machine, and the decision agents) into Lean and proves or refutes
the specified properties.  Conventions of the embedding:

* Python `float` values are modelled as exact rationals (`ℚ`).  All
  constants appearing in the sources (0.01, 0.15, 0.2, ...) are exactly
  representable, and for the concrete victim computation checked below the
  IEEE evaluation and the exact evaluation agree node by node.
* Python `int` is modelled as `ℤ` (or `ℕ` for values that are always
  non-negative by construction, such as message ids and time steps).
* Randomness (`random.random()`, `random.randint`, `random.shuffle`) is
  modelled by explicit oracle structures whose fields carry the drawn
  values, constrained by a well-formedness predicate to the ranges the
  library guarantees.
* Dictionaries keyed by fixed resource names become total functions from
  an enumerated key type; the bus consumer-offset dictionary becomes a
  total function `String → ℕ` with default value 0, matching
  `dict.get(c, 0)` / `dict.__setitem__`.
* Statistics counters, message payload dictionaries and purely cosmetic
  data (names, coordinates, the rescue-unit animation pool) are omitted:
  no verified property mentions them.
-/

namespace DisasterSim

/-! ## Message bus (`backend/message_bus.py`)

A message retains the fields relevant to ordering and replay; the payload
and timestamp are never inspected by any property below. -/

structure BusMsg where
  mid : ℕ
  sender : String
  mtype : String
  priority : ℤ
deriving DecidableEq

structure BusState where
  messages : List BusMsg
  counter : ℕ
  offsets : String → ℕ

def initBus : BusState := ⟨[], 0, fun _ => 0⟩

/-- `MessageBus.send`: increment the id counter and append. -/
def busSend (sender mtype : String) (priority : ℤ) (b : BusState) :
    BusState × BusMsg :=
  let msg : BusMsg := ⟨b.counter + 1, sender, mtype, priority⟩
  ({ b with messages := b.messages ++ [msg], counter := b.counter + 1 }, msg)

/-- `MessageBus.read_all`: with `clear` the whole active list is drained;
otherwise the messages with id above this consumer's offset are returned
and the offset advances to the newest id present (if any). -/
def busReadAll (c : String) (clear : Bool) (b : BusState) :
    BusState × List BusMsg :=
  if clear then ({ b with messages := [] }, b.messages)
  else
    let lastOff := b.offsets c
    let news := b.messages.filter (fun m => lastOff < m.mid)
    match b.messages.getLast? with
    | some m => ({ b with offsets := Function.update b.offsets c m.mid }, news)
    | none => (b, news)

/-- `MessageBus.clear_old_messages`: truncate the active list to its last
`keep` entries.  Note Python's `lst[-0:]` is the whole list, so
`keep = 0` leaves the list unchanged. -/
def busClearOld (keep : ℕ) (b : BusState) : BusState :=
  if keep < b.messages.length then
    if keep = 0 then b
    else { b with messages := b.messages.drop (b.messages.length - keep) }
  else b

inductive BusEvent
  | send (sender mtype : String) (priority : ℤ)
  | readAll (consumer : String) (clear : Bool)
  | clearOld (keep : ℕ)
deriving DecidableEq

def busStep (b : BusState) : BusEvent → BusState × List BusMsg
  | .send s t p => ((busSend s t p b).1, [])
  | .readAll c cl => busReadAll c cl b
  | .clearOld k => (busClearOld k b, [])

/-- Running a trace, recording the designated consumer's (clear = false)
read results and the list of all messages sent, in send order. -/
structure BusRun where
  bus : BusState
  outs : List BusMsg
  sent : List BusMsg

def consumerOut (c : String) (e : BusEvent) (out : List BusMsg) : List BusMsg :=
  match e with
  | .readAll c' false => if c' = c then out else []
  | _ => []

def sentOf (b : BusState) (e : BusEvent) : List BusMsg :=
  match e with
  | .send s t p => [(busSend s t p b).2]
  | _ => []

def busRun (c : String) : BusState → List BusEvent → BusRun
  | b, [] => ⟨b, [], []⟩
  | b, e :: es =>
    let st := busStep b e
    let r := busRun c st.1 es
    ⟨r.bus, consumerOut c e st.2 ++ r.outs, sentOf b e ++ r.sent⟩

/-- An event is safe for consumer `c` if every message it evicts from the
active list has already been read by `c` (id at most `c`'s offset): a
legacy full drain may only run once `c` has caught up, and a truncation
may only drop already-read messages. -/
def SafeEvent (c : String) (b : BusState) : BusEvent → Prop
  | .readAll _ true => ∀ m ∈ b.messages, m.mid ≤ b.offsets c
  | .clearOld k => k = 0 ∨ b.messages.length ≤ k ∨
      ∀ m ∈ b.messages.take (b.messages.length - k), m.mid ≤ b.offsets c
  | _ => True

def SafeTrace (c : String) : BusState → List BusEvent → Prop
  | _, [] => True
  | b, e :: es => SafeEvent c b e ∧ SafeTrace c (busStep b e).1 es

instance (c b) : ∀ e, Decidable (SafeEvent c b e)
  | .send _ _ _ => .isTrue trivial
  | .readAll _ true => inferInstanceAs (Decidable (∀ _ ∈ _, _))
  | .readAll _ false => .isTrue trivial
  | .clearOld _ => inferInstanceAs (Decidable (_ ∨ _))

instance (c) : ∀ b tr, Decidable (SafeTrace c b tr)
  | _, [] => .isTrue trivial
  | b, e :: es =>
    have : Decidable (SafeTrace c (busStep b e).1 es) := instDecidableSafeTrace c _ es
    inferInstanceAs (Decidable (_ ∧ _))

/-- The messages of the bus not yet read by consumer `c`. -/
def unread (c : String) (b : BusState) : List BusMsg :=
  b.messages.filter (fun m => b.offsets c < m.mid)

/-- Invariant carried along a bus trace. -/
structure BusInv (c : String) (b : BusState) (outs sent : List BusMsg) : Prop where
  ids_le : ∀ m ∈ b.messages, m.mid ≤ b.counter
  last_id : ∀ h : b.messages ≠ [], (b.messages.getLast h).mid = b.counter
  off_le : b.offsets c ≤ b.counter
  replay : outs ++ unread c b = sent

theorem busInv_init (c : String) : BusInv c initBus [] [] := by
  refine ⟨?_, ?_, ?_, ?_⟩ <;> simp [initBus, unread]

theorem filter_eq_nil_of_le {p : ℕ} (l : List BusMsg)
    (h : ∀ m ∈ l, m.mid ≤ p) : l.filter (fun m => p < m.mid) = [] := by
  induction l with
  | nil => rfl
  | cons a t ih =>
    have ha := h a (by simp)
    have ht : ∀ m ∈ t, m.mid ≤ p := fun m hm => h m (by simp [hm])
    simp [List.filter, Nat.not_lt.mpr ha, ih ht]

theorem drop_sub_ne_nil {α : Type} (l : List α) (k : ℕ) (hk : 0 < k)
    (hlt : k < l.length) : l.drop (l.length - k) ≠ [] := by
  intro h
  have := congrArg List.length h
  simp at this
  omega

theorem getLast_drop {α : Type} (l : List α) (n : ℕ) (h : l.drop n ≠ []) :
    ∀ h' : l ≠ [], (l.drop n).getLast h = l.getLast h' := by
  intro h'
  have h1 : l.drop n ≠ [] := h
  rw [List.getLast_eq_getElem, List.getLast_eq_getElem,
    List.getElem_drop]
  congr 1
  have hn : n < l.length := by
    by_contra hn
    exact h1 (List.drop_eq_nil_of_le (Nat.le_of_not_lt hn))
  have := List.length_drop n l
  omega

theorem busStep_send (b : BusState) (s t : String) (p : ℤ) :
    busStep b (.send s t p) =
      (⟨b.messages ++ [⟨b.counter + 1, s, t, p⟩], b.counter + 1, b.offsets⟩,
        []) := rfl

theorem busStep_drain (b : BusState) (c' : String) :
    busStep b (.readAll c' true) =
      (⟨[], b.counter, b.offsets⟩, b.messages) := rfl

theorem busStep_read_nil (b : BusState) (c' : String)
    (h : b.messages.getLast? = none) :
    busStep b (.readAll c' false) =
      (b, b.messages.filter (fun m => b.offsets c' < m.mid)) := by
  simp [busStep, busReadAll, h]

theorem busStep_read_last (b : BusState) (c' : String) (last : BusMsg)
    (h : b.messages.getLast? = some last) :
    busStep b (.readAll c' false) =
      (⟨b.messages, b.counter, Function.update b.offsets c' last.mid⟩,
        b.messages.filter (fun m => b.offsets c' < m.mid)) := by
  simp [busStep, busReadAll, h]

theorem busStep_clear_keep (b : BusState) (k : ℕ)
    (h : ¬ k < b.messages.length ∨ k = 0) :
    busStep b (.clearOld k) = (b, []) := by
  rcases h with h | h <;> simp [busStep, busClearOld, h]

theorem busStep_clear_drop (b : BusState) (k : ℕ)
    (hlt : k < b.messages.length) (hk : k ≠ 0) :
    busStep b (.clearOld k) =
      (⟨b.messages.drop (b.messages.length - k), b.counter, b.offsets⟩,
        []) := by
  simp [busStep, busClearOld, hlt, hk]

/-- One step preserves the bus invariant on safe events. -/
theorem busInv_step (c : String) (b : BusState) (e : BusEvent)
    (outs sent : List BusMsg) (inv : BusInv c b outs sent)
    (hsafe : SafeEvent c b e) :
    BusInv c (busStep b e).1 (outs ++ consumerOut c e (busStep b e).2)
      (sent ++ sentOf b e) := by
  obtain ⟨ids_le, last_id, off_le, replay⟩ := inv
  cases e with
  | send s t p =>
    rw [busStep_send]
    refine ⟨?_, ?_, ?_, ?_⟩
    · intro m hm
      rcases List.mem_append.mp hm with hm | hm
      · exact Nat.le_succ_of_le (ids_le m hm)
      · rw [List.mem_singleton.mp hm]
    · intro h
      simp
    · exact Nat.le_succ_of_le off_le
    · show outs ++ [] ++ _ = sent ++ _
      simp only [consumerOut, sentOf, unread, List.append_nil]
      show outs ++ (b.messages ++ [_]).filter _ = sent ++ [_]
      rw [List.filter_append, List.filter_cons, List.filter_nil,
        if_pos (decide_eq_true (show b.offsets c < b.counter + 1 by omega)),
        ← List.append_assoc]
      unfold unread at replay
      rw [replay]
      rfl
  | readAll c' cl =>
    cases cl with
    | true =>
      rw [busStep_drain]
      refine ⟨by intro m hm; simp at hm, by intro h; simp at h,
        off_le, ?_⟩
      show outs ++ [] ++ _ = sent ++ _
      simp only [consumerOut, sentOf, unread, List.append_nil,
        List.filter_nil]
      unfold unread at replay
      rw [filter_eq_nil_of_le b.messages hsafe] at replay
      simpa using replay
    | false =>
      cases hmsgs : b.messages.getLast? with
      | none =>
        have hnil : b.messages = [] := List.getLast?_eq_none_iff.mp hmsgs
        rw [busStep_read_nil b c' hmsgs]
        refine ⟨ids_le, last_id, off_le, ?_⟩
        show outs ++ consumerOut c _ _ ++ unread c b = sent ++ []
        have hout : consumerOut c (BusEvent.readAll c' false)
            (b.messages.filter (fun m => b.offsets c' < m.mid)) = [] := by
          unfold consumerOut
          rw [hnil]
          simp
        rw [hout]
        simpa using replay
      | some last =>
        have hne : b.messages ≠ [] := by
          intro h; rw [h] at hmsgs; simp at hmsgs
        have hlid : last.mid = b.counter := by
          have h1 : b.messages.getLast hne = last := by
            rwa [List.getLast?_eq_getLast b.messages hne,
              Option.some.injEq] at hmsgs
          rw [← h1]; exact last_id hne
        rw [busStep_read_last b c' last hmsgs]
        by_cases hc : c' = c
        · subst hc
          refine ⟨ids_le, last_id, ?_, ?_⟩
          · show Function.update b.offsets c' last.mid c' ≤ b.counter
            rw [Function.update_same, hlid]
          · have h0 : b.messages.filter (fun m => last.mid < m.mid) = [] := by
              apply filter_eq_nil_of_le
              intro m hm; rw [hlid]; exact ids_le m hm
            show outs ++ (if c' = c' then b.messages.filter
                (fun m => b.offsets c' < m.mid) else []) ++
              (b.messages.filter
                (fun m => Function.update b.offsets c' last.mid c' < m.mid)) =
              sent ++ []
            rw [if_pos rfl, Function.update_same, h0, List.append_nil,
              List.append_nil]
            unfold unread at replay
            rw [replay]
        · have hoff : Function.update b.offsets c' last.mid c = b.offsets c :=
            Function.update_noteq (fun h => hc h.symm) _ _
          refine ⟨ids_le, last_id, ?_, ?_⟩
          · show Function.update b.offsets c' last.mid c ≤ b.counter
            rw [hoff]; exact off_le
          · show outs ++ (if c' = c then b.messages.filter
                (fun m => b.offsets c' < m.mid) else []) ++
              (b.messages.filter
                (fun m => Function.update b.offsets c' last.mid c < m.mid)) =
              sent ++ []
            rw [if_neg hc, hoff, List.append_nil, List.append_nil]
            unfold unread at replay
            rw [replay]
  | clearOld k =>
    by_cases hlen : k < b.messages.length
    · by_cases hk : k = 0
      · rw [busStep_clear_keep b k (Or.inr hk)]
        refine ⟨ids_le, last_id, off_le, ?_⟩
        show outs ++ [] ++ unread c b = sent ++ []
        simpa using replay
      · rw [busStep_clear_drop b k hlen hk]
        have hkeep := b.messages.take_append_drop (b.messages.length - k)
        have hsafe' : ∀ m ∈ b.messages.take (b.messages.length - k),
            m.mid ≤ b.offsets c := by
          rcases hsafe with h | h | h
          · exact absurd h hk
          · omega
          · exact h
        refine ⟨?_, ?_, off_le, ?_⟩
        · intro m hm
          exact ids_le m (List.mem_of_mem_drop hm)
        · intro h
          have hne : b.messages ≠ [] := by
            intro hnil; rw [hnil] at hlen; simp at hlen
          rw [getLast_drop b.messages _ h hne]
          exact last_id hne
        · show outs ++ [] ++ _ = sent ++ []
          simp only [List.append_nil, unread]
          have hdropped : (b.messages.take (b.messages.length - k)).filter
              (fun m => b.offsets c < m.mid) = [] :=
            filter_eq_nil_of_le _ hsafe'
          calc outs ++ (b.messages.drop (b.messages.length - k)).filter
                (fun m => b.offsets c < m.mid)
              = outs ++ ((b.messages.take (b.messages.length - k)).filter
                  (fun m => b.offsets c < m.mid) ++
                (b.messages.drop (b.messages.length - k)).filter
                  (fun m => b.offsets c < m.mid)) := by rw [hdropped]; rfl
            _ = outs ++ b.messages.filter (fun m => b.offsets c < m.mid) := by
                rw [← List.filter_append, hkeep]
            _ = sent := replay
    · rw [busStep_clear_keep b k (Or.inl hlen)]
      refine ⟨ids_le, last_id, off_le, ?_⟩
      show outs ++ [] ++ unread c b = sent ++ []
      simpa using replay

theorem busInv_run (c : String) (tr : List BusEvent) :
    ∀ b outs sent, BusInv c b outs sent → SafeTrace c b tr →
      BusInv c (busRun c b tr).bus (outs ++ (busRun c b tr).outs)
        (sent ++ (busRun c b tr).sent) := by
  induction tr with
  | nil => intro b outs sent inv _; simpa [busRun] using inv
  | cons e es ih =>
    intro b outs sent inv hsafe
    obtain ⟨h1, h2⟩ := hsafe
    have step := busInv_step c b e outs sent inv h1
    have := ih (busStep b e).1 (outs ++ consumerOut c e (busStep b e).2)
      (sent ++ sentOf b e) step h2
    simpa [busRun, List.append_assoc] using this

/-- Claim C1, amended: for a consumer reading with `clear = false` starting
from a fresh bus, the concatenation of its `read_all` results followed by
the messages it has not read yet equals the full send history, in id
order, each message exactly once — provided every `clear_old_messages`
call (and every legacy full drain) evicts only messages the consumer has
already read.  Without that proviso the property fails, see the
counterexample: `clear_old_messages` can evict messages the consumer has
never seen. -/
theorem c1_bus_replay_amended (c : String) (tr : List BusEvent)
    (hsafe : SafeTrace c initBus tr) :
    (busRun c initBus tr).outs ++ unread c (busRun c initBus tr).bus =
        (busRun c initBus tr).sent ∧
      (unread c (busRun c initBus tr).bus = [] →
        (busRun c initBus tr).outs = (busRun c initBus tr).sent) := by
  have h := (busInv_run c tr initBus [] [] (busInv_init c) hsafe).replay
  simp only [List.nil_append] at h
  refine ⟨h, fun hu => ?_⟩
  rw [hu, List.append_nil] at h
  exact h

theorem c1_bus_replay_amended_witness :
    SafeTrace "c1" initBus
        [.send "A" "x" 1, .readAll "c1" false, .send "B" "y" 1,
          .clearOld 1, .readAll "c1" false] ∧
      ((busRun "c1" initBus
          [.send "A" "x" 1, .readAll "c1" false, .send "B" "y" 1,
            .clearOld 1, .readAll "c1" false]).outs ++
        unread "c1" (busRun "c1" initBus
          [.send "A" "x" 1, .readAll "c1" false, .send "B" "y" 1,
            .clearOld 1, .readAll "c1" false]).bus =
        (busRun "c1" initBus
          [.send "A" "x" 1, .readAll "c1" false, .send "B" "y" 1,
            .clearOld 1, .readAll "c1" false]).sent ∧
      (unread "c1" (busRun "c1" initBus
          [.send "A" "x" 1, .readAll "c1" false, .send "B" "y" 1,
            .clearOld 1, .readAll "c1" false]).bus = [] →
        (busRun "c1" initBus
          [.send "A" "x" 1, .readAll "c1" false, .send "B" "y" 1,
            .clearOld 1, .readAll "c1" false]).outs =
          (busRun "c1" initBus
            [.send "A" "x" 1, .readAll "c1" false, .send "B" "y" 1,
              .clearOld 1, .readAll "c1" false]).sent)) :=
  ⟨by decide, c1_bus_replay_amended "c1" _ (by decide)⟩

/-- A trace on which the claim as stated fails: the consumer's first read
happens immediately, three messages are sent, and a
`clear_old_messages(1)` call evicts the two oldest before the consumer's
second read. -/
def c1Trace : List BusEvent :=
  [.readAll "c1" false, .send "A" "x" 1, .send "A" "y" 1, .send "A" "z" 1,
    .clearOld 1, .readAll "c1" false]

/-- Claim C1 is falsified as stated: with `clear_old_messages` running
between two reads, the concatenated `read_all` results are the messages
with ids `[3]`, while the messages sent since the consumer's first call
are `[1, 2, 3]` — message 2 is never delivered to the consumer. -/
theorem c1_bus_replay_counterexample :
    (busRun "c1" initBus c1Trace).outs.map BusMsg.mid = [3] ∧
      (busRun "c1" initBus c1Trace).sent.map BusMsg.mid = [1, 2, 3] ∧
      (busRun "c1" initBus c1Trace).outs.map BusMsg.mid ≠
        (busRun "c1" initBus c1Trace).sent.map BusMsg.mid := by
  refine ⟨by decide, by decide, by decide⟩

/-! ## Environment (`backend/environment.py`)

Phases and resource names are fixed finite sets in the source, so they
become enumerated types.  Node names, coordinates and infrastructure
values are never read by the modelled code and are omitted; `from`/`to`
are Lean keywords and become `src`/`dst`; the scenario string field is
called `scen`. -/

inductive Phase
  | idle
  | response
  | rebuild
  | recovered
deriving DecidableEq

inductive ResName
  | ambulances
  | drones
  | medical_kits
  | repair_crews
  | food_packs
deriving DecidableEq, Fintype

structure Node where
  nid : ℕ
  population : ℤ
  ntype : String
  vulnEq : ℚ
  vulnFlood : ℚ
  vulnWild : ℚ
deriving DecidableEq

structure Edge where
  src : ℕ
  dst : ℕ
  distance : ℚ
  etype : String
  blocked : Bool
deriving DecidableEq

/-- `node['vulnerability'].get(scenario, 1.0)`. -/
def Node.vuln (n : Node) (s : String) : ℚ :=
  if s = "earthquake" then n.vulnEq
  else if s = "flood" then n.vulnFlood
  else if s = "wildfire" then n.vulnWild
  else 1

/-- The 27 Karachi nodes (id, population, type, vulnerability per
scenario), in list position = id order. -/
def karachiNodes : List Node :=
  [⟨0, 3822325, "district_center", 1.2, 0.9, 0.5⟩,
   ⟨1, 3921742, "district_center", 1.1, 1.0, 0.6⟩,
   ⟨2, 2679380, "district_center", 1.0, 1.1, 0.7⟩,
   ⟨3, 2329764, "district_center", 1.1, 1.2, 0.5⟩,
   ⟨4, 2432248, "district_center", 0.9, 1.3, 0.8⟩,
   ⟨5, 3128971, "district_center", 1.0, 1.1, 0.6⟩,
   ⟨6, 2068451, "district_center", 1.0, 1.4, 0.7⟩,
   ⟨7, 500000, "residential", 1.2, 0.8, 0.6⟩,
   ⟨8, 600000, "residential", 1.3, 1.0, 0.7⟩,
   ⟨9, 400000, "residential", 1.0, 1.4, 0.5⟩,
   ⟨10, 800000, "residential", 1.1, 0.9, 0.6⟩,
   ⟨11, 1000000, "residential", 1.3, 1.2, 0.8⟩,
   ⟨12, 700000, "residential", 1.1, 1.0, 0.7⟩,
   ⟨13, 100000, "commercial", 1.2, 0.7, 0.4⟩,
   ⟨14, 50000, "commercial", 1.1, 0.8, 0.5⟩,
   ⟨15, 150000, "commercial", 1.0, 0.9, 0.6⟩,
   ⟨16, 200000, "commercial", 1.1, 0.8, 0.5⟩,
   ⟨17, 300000, "industrial", 1.0, 1.1, 0.8⟩,
   ⟨18, 0, "landmark", 1.0, 0.8, 0.4⟩,
   ⟨19, 0, "landmark", 1.1, 1.5, 0.6⟩,
   ⟨20, 0, "public_service", 1.0, 0.7, 0.3⟩,
   ⟨21, 0, "public_service", 1.1, 0.8, 0.4⟩,
   ⟨22, 0, "public_service", 0.9, 0.6, 0.2⟩,
   ⟨23, 0, "public_service", 1.0, 1.0, 0.5⟩,
   ⟨24, 0, "public_service", 1.1, 1.1, 0.6⟩,
   ⟨25, 0, "public_service", 0.9, 1.2, 0.7⟩,
   ⟨26, 0, "public_service", 0.8, 0.7, 0.3⟩]

/-- The 31 Karachi edges, all initially unblocked. -/
def karachiEdges : List Edge :=
  [⟨0, 1, 5.0, "highway", false⟩, ⟨0, 2, 7.0, "highway", false⟩,
   ⟨0, 3, 4.0, "road", false⟩, ⟨1, 4, 15.0, "highway", false⟩,
   ⟨1, 5, 6.0, "road", false⟩, ⟨2, 6, 5.0, "road", false⟩,
   ⟨3, 6, 8.0, "highway", false⟩, ⟨4, 5, 20.0, "highway", false⟩,
   ⟨0, 7, 1.0, "road", false⟩, ⟨0, 8, 2.0, "road", false⟩,
   ⟨3, 9, 1.0, "road", false⟩, ⟨1, 10, 3.0, "road", false⟩,
   ⟨0, 11, 10.0, "highway", false⟩, ⟨1, 12, 5.0, "road", false⟩,
   ⟨0, 13, 0.5, "road", false⟩, ⟨0, 14, 1.0, "road", false⟩,
   ⟨0, 15, 2.0, "road", false⟩, ⟨1, 16, 2.0, "road", false⟩,
   ⟨5, 17, 1.0, "road", false⟩, ⟨0, 18, 12.0, "highway", false⟩,
   ⟨1, 18, 8.0, "road", false⟩, ⟨6, 19, 2.0, "road", false⟩,
   ⟨0, 20, 0.5, "road", false⟩, ⟨0, 21, 1.0, "road", false⟩,
   ⟨1, 22, 1.0, "road", false⟩, ⟨3, 23, 0.5, "road", false⟩,
   ⟨5, 24, 0.5, "road", false⟩, ⟨4, 25, 1.0, "road", false⟩,
   ⟨0, 26, 1.0, "road", false⟩, ⟨7, 13, 0.5, "road", false⟩,
   ⟨9, 23, 0.5, "road", false⟩, ⟨10, 16, 1.0, "road", false⟩]

/-- Simulation parameters (`self.params`), never mutated. -/
def aftershock_factor : ℚ := 0.3
def road_block_chance : ℚ := 0.4
def rebuild_required : ℚ := 100
def rebuild_factor_per_crew : ℚ := 2

structure Env where
  time_step : ℕ
  scen : Option String
  disaster : Bool
  phase : Phase
  victims : ℤ
  victims_saved : ℤ
  seismic_level : ℚ
  aftershock : Bool
  roads_blocked : Bool
  resources : ResName → ℤ
  initial_resources : ResName → ℤ
  resources_used : ResName → ℤ
  rebuild_progress : ℚ
  cooldown_counter : ℤ
  edges : List Edge
  affected_nodes : List ℕ
  affected_edges : List ℕ

def defaultResources : ResName → ℤ
  | .ambulances => 5
  | .drones => 3
  | .medical_kits => 40
  | .repair_crews => 2
  | .food_packs => 50

def initEnv : Env where
  time_step := 0
  scen := none
  disaster := false
  phase := .idle
  victims := 0
  victims_saved := 0
  seismic_level := 0
  aftershock := false
  roads_blocked := false
  resources := defaultResources
  initial_resources := defaultResources
  resources_used := fun _ => 0
  rebuild_progress := 0
  cooldown_counter := 0
  edges := karachiEdges
  affected_nodes := []
  affected_edges := []

/-- Python `int(x)` on a float: truncation toward zero. -/
def pyInt (q : ℚ) : ℤ := if 0 ≤ q then ⌊q⌋ else -⌊-q⌋

/-- Randomness oracle for one `trigger_disaster` call: one unit draw per
node id (flood/wildfire/other selection), one per edge index (blocking),
and one `randint` result per resource. -/
structure TriggerRand where
  nodeDraw : ℕ → ℚ
  edgeDraw : ℕ → ℚ
  resDraw : ResName → ℤ

def unitRange (f : ℕ → ℚ) : Prop := ∀ i, 0 ≤ f i ∧ f i < 1

/-- Ranges guaranteed by the library calls made for the given scenario. -/
def TriggerRand.Wf (r : TriggerRand) (s : String) : Prop :=
  unitRange r.nodeDraw ∧ unitRange r.edgeDraw ∧
    (if s = "earthquake" then
      (3 ≤ r.resDraw .ambulances ∧ r.resDraw .ambulances ≤ 8) ∧
      (1 ≤ r.resDraw .drones ∧ r.resDraw .drones ≤ 4) ∧
      (20 ≤ r.resDraw .medical_kits ∧ r.resDraw .medical_kits ≤ 80) ∧
      (1 ≤ r.resDraw .repair_crews ∧ r.resDraw .repair_crews ≤ 4) ∧
      (30 ≤ r.resDraw .food_packs ∧ r.resDraw .food_packs ≤ 100)
    else if s = "flood" then
      (2 ≤ r.resDraw .ambulances ∧ r.resDraw .ambulances ≤ 6) ∧
      (2 ≤ r.resDraw .drones ∧ r.resDraw .drones ≤ 6) ∧
      (15 ≤ r.resDraw .medical_kits ∧ r.resDraw .medical_kits ≤ 60) ∧
      (2 ≤ r.resDraw .repair_crews ∧ r.resDraw .repair_crews ≤ 6) ∧
      (40 ≤ r.resDraw .food_packs ∧ r.resDraw .food_packs ≤ 120)
    else if s = "wildfire" then
      (1 ≤ r.resDraw .ambulances ∧ r.resDraw .ambulances ≤ 4) ∧
      (3 ≤ r.resDraw .drones ∧ r.resDraw .drones ≤ 8) ∧
      (10 ≤ r.resDraw .medical_kits ∧ r.resDraw .medical_kits ≤ 40) ∧
      (3 ≤ r.resDraw .repair_crews ∧ r.resDraw .repair_crews ≤ 8) ∧
      (20 ≤ r.resDraw .food_packs ∧ r.resDraw .food_packs ≤ 80)
    else ∀ k, 1 ≤ r.resDraw k ∧ r.resDraw k ≤ 10)

def coastalIds : List ℕ := [3, 4, 6, 19, 9, 8, 11]
def dryIds : List ℕ := [2, 4, 6, 17]

/-- Affected-node selection by scenario. -/
def affectedFor (s : String) (r : TriggerRand) : List ℕ :=
  if s = "earthquake" then List.range karachiNodes.length
  else if s = "flood" then
    (karachiNodes.filter (fun n =>
      decide (n.nid ∈ coastalIds ∨ r.nodeDraw n.nid < 0.3))).map Node.nid
  else if s = "wildfire" then
    (karachiNodes.filter (fun n =>
      decide (n.nid ∈ dryIds ∨ r.nodeDraw n.nid < 0.2))).map Node.nid
  else
    (karachiNodes.filter (fun n =>
      decide (r.nodeDraw n.nid < 0.7))).map Node.nid

/-- Mark/randomly block the edges touching an affected node; returns the
new edge list and the list of affected edge indices. -/
def triggerEdges (affected : List ℕ) (s : ℚ) (r : TriggerRand)
    (edges : List Edge) : List Edge × List ℕ :=
  (edges.enum.map (fun p =>
      if p.2.src ∈ affected ∨ p.2.dst ∈ affected then
        if r.edgeDraw p.1 < (if p.2.etype = "road" then 0.2 else 0.1) * s then
          { p.2 with blocked := true }
        else p.2
      else p.2),
    (edges.enum.filter (fun p =>
      decide (p.2.src ∈ affected ∨ p.2.dst ∈ affected))).map Prod.fst)

def defaultNode : Node := ⟨0, 0, "", 1, 1, 1⟩

/-- Per-node victim counts: `int(population * 0.01 * seismic * vuln)`,
summed over the affected ids (exact-rational model of the float product;
for the concrete inputs proved about below the IEEE and exact evaluations
agree node by node). -/
def victimsFor (affected : List ℕ) (s : ℚ) (scName : String) : ℤ :=
  (affected.map (fun i =>
    let n := karachiNodes.getD i defaultNode
    pyInt ((n.population : ℚ) * 0.01 * s * n.vuln scName))).sum

/-- Caller-supplied resources: unknown keys are unrepresentable here;
provided values are clamped to be non-negative, other keys keep their
current values. -/
def overrideRes (base : ResName → ℤ) (rs : List (ResName × ℤ)) :
    ResName → ℤ :=
  rs.foldl (fun acc kv => Function.update acc kv.1 (max 0 kv.2)) base

/-- Scenario-tuned random resource ranges; the fall-through branch takes
`max(0, int(randint(1,10) * (1 + seismic)))`. -/
def randResources (s : String) (lvl : ℚ) (r : TriggerRand) : ResName → ℤ :=
  if s = "earthquake" ∨ s = "flood" ∨ s = "wildfire" then r.resDraw
  else fun k => max 0 (pyInt ((r.resDraw k : ℚ) * (1 + lvl)))

/-- `Environment.trigger_disaster`.  Note it does not touch `aftershock`,
`rebuild_progress` or `cooldown_counter`. -/
def triggerDisaster (scName : String) (intensity : ℚ)
    (resOpt : Option (List (ResName × ℤ))) (r : TriggerRand) (e : Env) :
    Env :=
  let lvl := max 0 (min 1 intensity)
  let affected := affectedFor scName r
  let ep := triggerEdges affected lvl r e.edges
  let res :=
    match resOpt with
    | some rs =>
      if rs.isEmpty then randResources scName lvl r
      else overrideRes e.resources rs
    | none => randResources scName lvl r
  { e with
    scen := some scName
    disaster := true
    phase := .response
    time_step := 0
    victims_saved := 0
    seismic_level := lvl
    affected_nodes := affected
    affected_edges := ep.2
    edges := ep.1
    roads_blocked := ep.1.any Edge.blocked
    victims := max 10 (victimsFor affected lvl scName)
    resources := res
    initial_resources := res
    resources_used := fun _ => 0 }

/-- Randomness oracle for one `update` call (the recovered branch embeds
a whole `trigger_disaster` oracle for the automatic re-trigger). -/
structure UpdateRand where
  rAfter : ℚ
  rRoad : ℚ
  rDecay : ℚ
  rVict : ℚ
  newVict : ℤ
  rInc : ℚ
  shuffled : List ℕ
  rRestore : ResName → ℚ
  cooldown : ℤ
  scenChoice : String
  rIntensity : ℚ
  trig : TriggerRand

def blockedIdx (e : Env) : List ℕ :=
  (e.edges.enum.filter (fun p => p.2.blocked)).map Prod.fst

def UpdateRand.Wf (u : UpdateRand) (e : Env) : Prop :=
  (0 ≤ u.rAfter ∧ u.rAfter < 1) ∧ (0 ≤ u.rRoad ∧ u.rRoad < 1) ∧
    (0 ≤ u.rDecay ∧ u.rDecay < 1) ∧ (0 ≤ u.rVict ∧ u.rVict < 1) ∧
    1 ≤ u.newVict ∧ (0 ≤ u.rInc ∧ u.rInc < 1) ∧
    u.shuffled.Perm (blockedIdx e) ∧
    (∀ k, 0 ≤ u.rRestore k ∧ u.rRestore k < 1) ∧
    (2 ≤ u.cooldown ∧ u.cooldown ≤ 6) ∧
    u.scenChoice ∈ ["earthquake", "flood", "wildfire"] ∧
    (1/10 ≤ u.rIntensity ∧ u.rIntensity ≤ 1) ∧
    u.trig.Wf u.scenChoice

/-- Response tick: fresh aftershock draw. -/
def respAftershock (e : Env) (u : UpdateRand) : Bool :=
  decide (u.rAfter < aftershock_factor * (0.5 + e.seismic_level))

/-- Response tick: fresh road-blocking draw (uses the pre-decay seismic
level, as in the source). -/
def respRoadsBlocked (e : Env) (u : UpdateRand) : Bool :=
  decide (u.rRoad < road_block_chance + 0.2 * e.seismic_level +
    (if respAftershock e u then (0.2 : ℚ) else 0))

/-- Response tick: victims after the possible secondary-collapse add. -/
def respVictims (e : Env) (u : UpdateRand) : ℤ :=
  if respAftershock e u = true ∧ u.rVict < 0.2 then e.victims + u.newVict
  else e.victims

def respCore (e : Env) (u : UpdateRand) : Env :=
  { e with
    aftershock := respAftershock e u
    roads_blocked := respRoadsBlocked e u
    seismic_level := max 0 (e.seismic_level - u.rDecay * 0.1)
    victims := respVictims e u }

def updateResponse (e : Env) (u : UpdateRand) : Env :=
  if respVictims e u ≤ 0 ∧ respAftershock e u = false then
    { respCore e u with phase := Phase.rebuild, rebuild_progress := 0 }
  else respCore e u

/-- Rebuild tick: the progress increment from crews and drones. -/
def rebuildIncrement (e : Env) (u : UpdateRand) : ℚ :=
  ((max 0 (e.resources .repair_crews) : ℤ) : ℚ) * rebuild_factor_per_crew +
    ((max 0 (e.resources .drones) : ℤ) : ℚ) * 0.15

/-- Rebuild tick: increment after the random factor. -/
def rebuildInc (e : Env) (u : UpdateRand) : ℚ :=
  rebuildIncrement e u * (0.8 + u.rInc * 0.4)

def rebuildProg (e : Env) (u : UpdateRand) : ℚ :=
  min 100 (e.rebuild_progress + rebuildInc e u)

/-- Rebuild tick: unblock `int(increment // 5)` shuffled blocked edges. -/
def rebuildEdges (e : Env) (u : UpdateRand) : List Edge :=
  e.edges.enum.map (fun p =>
    if p.1 ∈ u.shuffled.take (⌊rebuildInc e u / 5⌋).toNat then
      { p.2 with blocked := false }
    else p.2)

def rebuildCore (e : Env) (u : UpdateRand) : Env :=
  { e with
    rebuild_progress := rebuildProg e u
    edges := rebuildEdges e u
    roads_blocked := (rebuildEdges e u).any Edge.blocked
    resources := Function.update e.resources ResName.repair_crews
      (max 0 (e.resources ResName.repair_crews -
        min (e.resources ResName.repair_crews)
          (max 0 ⌊rebuildInc e u / 3⌋))) }

def updateRebuild (e : Env) (u : UpdateRand) : Env :=
  if rebuild_required ≤ rebuildProg e u then
    { rebuildCore e u with
      phase := Phase.recovered
      disaster := false
      seismic_level := 0
      roads_blocked := false
      victims := 0
      edges := (rebuildCore e u).edges.map (fun ed =>
        { ed with blocked := false })
      affected_nodes := []
      affected_edges := []
      resources := fun k => max 0 (pyInt
        (((rebuildCore e u).initial_resources k : ℚ) *
          (0.9 + u.rRestore k * 0.2)))
      cooldown_counter := u.cooldown }
  else rebuildCore e u

/-- Recovered tick: count down, then auto-trigger a random disaster. -/
def updateRecovered (e : Env) (u : UpdateRand) : Env :=
  if 0 < e.cooldown_counter then
    { e with cooldown_counter := e.cooldown_counter - 1 }
  else triggerDisaster u.scenChoice u.rIntensity none u.trig e

/-- The final per-tick clamp: victims and every resource count at least 0. -/
def updateClamp (e : Env) : Env :=
  { e with
    victims := max 0 e.victims
    resources := fun k => max 0 (e.resources k) }

/-- `Environment.update`: one tick, dispatching on the phase exactly as
the source's `if`/`elif` chain; the clamp runs in every non-idle branch. -/
def updateEnv (e : Env) (u : UpdateRand) : Env :=
  if e.phase = Phase.idle then e
  else
    updateClamp
      (if e.phase = Phase.response then
        updateResponse { e with time_step := e.time_step + 1 } u
      else if e.phase = Phase.rebuild then
        updateRebuild { e with time_step := e.time_step + 1 } u
      else if e.phase = Phase.recovered then
        updateRecovered { e with time_step := e.time_step + 1 } u
      else { e with time_step := e.time_step + 1 })

/-- `Environment.save_victims`. -/
def saveVictims (count : ℤ) (e : Env) : Env × ℤ :=
  let actual := min count e.victims
  ({ e with
      victims := max 0 (e.victims - actual)
      victims_saved := e.victims_saved + actual }, actual)

/-- `Environment.use_resource` (the resource name is always one of the
ledger's keys here; the unknown-name no-op is unrepresentable). -/
def useResource (k : ResName) (amount : ℤ) (e : Env) : Env × ℤ :=
  let actual := min amount (e.resources k)
  ({ e with
      resources := Function.update e.resources k (e.resources k - actual)
      resources_used := Function.update e.resources_used k
        (e.resources_used k + actual) }, actual)

/-! ## UtilityAgent (`backend/agents/utility_agent.py`)

Only the decision data that `act` reads back is modelled (the planned
consumption and the resource counts observed at the start of the tick);
message text is cosmetic.  `decide` is a function of the observation, and
`act` applies the consumption and the `save_victims` call. -/

def AMBULANCE_CAPACITY : ℤ := 500
def DRONE_CAPACITY : ℤ := 200
def MEDICAL_KIT_CAPACITY : ℤ := 50
def FOOD_PACK_CAPACITY : ℤ := 30

structure RescuePayload where
  allocKits : ℤ
  allocFood : ℤ
  activeAmb : ℤ
  activeDrones : ℤ
deriving DecidableEq

inductive UtilityIntent
  | rescue (p : RescuePayload)
  | status
deriving DecidableEq

/-- `potential_saved` in `UtilityAgent.decide`: kits and packs count at
their per-tick caps of 5 and 3. -/
def utilityPotential (e : Env) : ℤ :=
  e.resources .ambulances * AMBULANCE_CAPACITY +
    e.resources .drones * DRONE_CAPACITY +
    min (e.resources .medical_kits) 5 * MEDICAL_KIT_CAPACITY +
    min (e.resources .food_packs) 3 * FOOD_PACK_CAPACITY

/-- The rescue payload: planned consumption (capped by availability, the
per-tick cap and the remaining victim need, with `//` = floor division)
and the observed active resource counts. -/
def utilityPayload (e : Env) : RescuePayload :=
  ⟨min (e.resources .medical_kits) (min 5 (Int.fdiv
      (e.victims + MEDICAL_KIT_CAPACITY - 1) MEDICAL_KIT_CAPACITY)),
    min (e.resources .food_packs) (min 3 (Int.fdiv
      (e.victims + FOOD_PACK_CAPACITY - 1) FOOD_PACK_CAPACITY)),
    e.resources .ambulances, e.resources .drones⟩

/-- `UtilityAgent.decide`. -/
def utilityDecide (e : Env) : List UtilityIntent :=
  if e.phase ≠ Phase.response then []
  else if e.victims ≤ 0 then []
  else if 0 < utilityPotential e then [.rescue (utilityPayload e)]
  else [.status]

/-- `victims_this_step` in `UtilityAgent.act`: active (non-consumed)
resources plus the consumed amounts. -/
def tickThroughput (p : RescuePayload) : ℤ :=
  p.activeAmb * AMBULANCE_CAPACITY + p.activeDrones * DRONE_CAPACITY +
    p.allocKits * MEDICAL_KIT_CAPACITY + p.allocFood * FOOD_PACK_CAPACITY

def consumeKits (p : RescuePayload) (acc : Env) : Env :=
  if 0 < p.allocKits then
    (useResource .medical_kits p.allocKits acc).1
  else acc

def consumeFood (p : RescuePayload) (acc : Env) : Env :=
  if 0 < p.allocFood then
    (useResource .food_packs p.allocFood acc).1
  else acc

/-- One iteration of the loop in `UtilityAgent.act`: consume the planned
expendables (the ambulance/drone allocations are literal zeros in the
source and are skipped), then save victims from the computed throughput. -/
def utilityStep (acc : Env) (d : UtilityIntent) : Env :=
  match d with
  | .rescue p =>
    if 0 < tickThroughput p then
      (saveVictims (tickThroughput p) (consumeFood p (consumeKits p acc))).1
    else consumeFood p (consumeKits p acc)
  | .status => acc

def utilityAct (e : Env) : Env :=
  (utilityDecide e).foldl utilityStep e

/-! ## RebuildAgent (`backend/agents/rebuild_agent.py`) -/

def FOOD_COST_PER_CREW : ℤ := 5
def MIN_CREWS_FOR_REBUILD : ℤ := 2

inductive RIntent
  | repairStatus (estimated : ℤ) (prio : ℤ)
  | repairRequest (needed : ℤ) (prio : ℤ)
  | milestone (m : ℤ) (prio : ℤ)
deriving DecidableEq

def milestoneBands : List ℤ := [25, 50, 75, 90]

/-- The milestone loop with `break`: emit for the first band containing
the current progress, if any. -/
def milestoneFor (progress : ℚ) : List RIntent :=
  match milestoneBands.find? (fun (m : ℤ) =>
      decide ((m : ℚ) ≤ progress ∧ progress < (m : ℚ) + 5)) with
  | some m => [.milestone m 4]
  | none => []

/-- The estimated steps remaining: `int(remaining / max(0.1, rate))`,
or -1 when there are no crews. -/
def rebuildEstimate (e : Env) : ℤ :=
  if 0 < e.resources ResName.repair_crews then
    pyInt (max 0 (100 - e.rebuild_progress) /
      max 0.1 ((e.resources ResName.repair_crews : ℚ) *
          rebuild_factor_per_crew +
        (e.resources ResName.drones : ℚ) * 0.15))
  else -1

def rebuildDecide (e : Env) : List RIntent :=
  if e.phase ≠ Phase.rebuild then []
  else
    [RIntent.repairStatus (rebuildEstimate e) 6] ++
      (if e.resources ResName.repair_crews < MIN_CREWS_FOR_REBUILD then
        [RIntent.repairRequest
          (MIN_CREWS_FOR_REBUILD - e.resources ResName.repair_crews) 8]
      else []) ++
      milestoneFor e.rebuild_progress

/-- A message sent by `RebuildAgent.act`, with the payload fields the
properties below inspect. -/
structure RSent where
  mtype : String
  priority : ℤ
  addedCrews : ℤ
  foodUsed : ℤ
deriving DecidableEq

/-- The source's direct `env.resources['repair_crews'] += crews_added`. -/
def addCrews (n : ℤ) (env : Env) : Env :=
  { env with
    resources := Function.update env.resources ResName.repair_crews
      (env.resources ResName.repair_crews + n) }

/-- The inner recruitment attempt of `RebuildAgent.act`, once
`max_from_food > 0`: `food_used = use_resource('food_packs', add*5)`;
on `food_used > 0` the crew count is bumped directly and a `repair_alloc`
message is produced, otherwise a reduced-priority `repair_blocked`. -/
def recruitTry (amt : ℤ) (env : Env) (prio : ℤ) : Env × RSent :=
  if 0 < (useResource ResName.food_packs amt env).2 then
    (addCrews (Int.fdiv (useResource ResName.food_packs amt env).2
        FOOD_COST_PER_CREW) (useResource ResName.food_packs amt env).1,
      ⟨"repair_alloc", prio,
        Int.fdiv (useResource ResName.food_packs amt env).2
          FOOD_COST_PER_CREW,
        (useResource ResName.food_packs amt env).2⟩)
  else
    ((useResource ResName.food_packs amt env).1,
      ⟨"repair_blocked", max 1 (prio - 2), 0, 0⟩)

/-- The `repair_request` handling of `RebuildAgent.act`: try to recruit
`min(needed, food // 5)` crews from food, or report `repair_blocked` at
reduced priority when there is not enough food for a single crew. -/
def rebuildRecruit (needed prio : ℤ) (env : Env) : Env × RSent :=
  if 0 < Int.fdiv (env.resources ResName.food_packs) FOOD_COST_PER_CREW then
    recruitTry (min needed (Int.fdiv (env.resources ResName.food_packs)
      FOOD_COST_PER_CREW) * FOOD_COST_PER_CREW) env prio
  else (env, ⟨"repair_blocked", max 1 (prio - 2), 0, 0⟩)

/-- One iteration of the loop in `RebuildAgent.act`: `repair_request`
intents are resolved by recruitment, everything else is forwarded. -/
def rebuildStep (acc : Env × List RSent) (d : RIntent) : Env × List RSent :=
  match d with
  | .repairStatus _ prio => (acc.1, acc.2 ++ [⟨"repair_status", prio, 0, 0⟩])
  | .milestone _ prio => (acc.1, acc.2 ++ [⟨"milestone", prio, 0, 0⟩])
  | .repairRequest needed prio =>
    ((rebuildRecruit needed prio acc.1).1,
      acc.2 ++ [(rebuildRecruit needed prio acc.1).2])

def rebuildAct (e : Env) : Env × List RSent :=
  (rebuildDecide e).foldl rebuildStep (e, [])

/-- `Environment.reset`. -/
def resetEnv (e : Env) : Env :=
  { e with
    time_step := 0
    scen := none
    disaster := false
    phase := .idle
    victims := 0
    victims_saved := 0
    seismic_level := 0
    aftershock := false
    roads_blocked := false
    rebuild_progress := 0
    cooldown_counter := 0
    resources := defaultResources
    initial_resources := defaultResources
    resources_used := fun _ => 0
    affected_nodes := []
    affected_edges := []
    edges := e.edges.map (fun ed => { ed with blocked := false }) }

/-! ## Reachable states and non-negativity (claims C2, C3, C5, C10)

The public operations: trigger, tick, the two atomic resource operations,
reset, and the two agents whose `act` mutates the environment. -/

inductive Reachable : Env → Prop
  | init : Reachable initEnv
  | trigger (e : Env) (s : String) (i : ℚ)
      (ro : Option (List (ResName × ℤ))) (r : TriggerRand) :
      Reachable e → r.Wf s → Reachable (triggerDisaster s i ro r e)
  | tick (e : Env) (u : UpdateRand) :
      Reachable e → u.Wf e → Reachable (updateEnv e u)
  | use (e : Env) (k : ResName) (a : ℤ) :
      Reachable e → Reachable (useResource k a e).1
  | save (e : Env) (c : ℤ) : Reachable e → Reachable (saveVictims c e).1
  | reset (e : Env) : Reachable e → Reachable (resetEnv e)
  | uact (e : Env) : Reachable e → Reachable (utilityAct e)
  | ract (e : Env) : Reachable e → Reachable (rebuildAct e).1

def NonnegEnv (e : Env) : Prop := 0 ≤ e.victims ∧ ∀ k, 0 ≤ e.resources k

theorem nonneg_use (e : Env) (k : ResName) (a : ℤ) (h : NonnegEnv e) :
    NonnegEnv (useResource k a e).1 := by
  refine ⟨h.1, fun k' => ?_⟩
  show 0 ≤ Function.update e.resources k (e.resources k - min a (e.resources k)) k'
  rw [Function.update_apply]
  split
  · omega
  · exact h.2 k'

theorem nonneg_save (e : Env) (c : ℤ) (h : NonnegEnv e) :
    NonnegEnv (saveVictims c e).1 :=
  ⟨le_max_left 0 _, h.2⟩

theorem nonneg_reset (e : Env) : NonnegEnv (resetEnv e) := by
  refine ⟨le_refl 0, fun k => ?_⟩
  show 0 ≤ defaultResources k
  cases k <;> decide

theorem nonneg_overrideRes (rs : List (ResName × ℤ)) :
    ∀ base, (∀ k, 0 ≤ base k) → ∀ k, 0 ≤ overrideRes base rs k := by
  induction rs with
  | nil => intro base h k; exact h k
  | cons p t ih =>
    intro base h k
    apply ih
    intro k'
    show 0 ≤ Function.update base p.1 (max 0 p.2) k'
    rw [Function.update_apply]
    split
    · exact le_max_left 0 _
    · exact h k'

theorem nonneg_randResources (s : String) (lvl : ℚ) (r : TriggerRand)
    (hw : r.Wf s) : ∀ k, 0 ≤ randResources s lvl r k := by
  intro k
  obtain ⟨-, -, hres⟩ := hw
  unfold randResources
  by_cases h1 : s = "earthquake"
  · rw [if_pos (Or.inl h1)]
    rw [if_pos h1] at hres
    cases k <;> omega
  · by_cases h2 : s = "flood"
    · rw [if_pos (Or.inr (Or.inl h2))]
      rw [if_neg h1, if_pos h2] at hres
      cases k <;> omega
    · by_cases h3 : s = "wildfire"
      · rw [if_pos (Or.inr (Or.inr h3))]
        rw [if_neg h1, if_neg h2, if_pos h3] at hres
        cases k <;> omega
      · rw [if_neg (by simp [h1, h2, h3])]
        exact le_max_left 0 _

theorem nonneg_trigger (e : Env) (s : String) (i : ℚ)
    (ro : Option (List (ResName × ℤ))) (r : TriggerRand) (hw : r.Wf s)
    (h : NonnegEnv e) : NonnegEnv (triggerDisaster s i ro r e) := by
  cases ro with
  | none =>
    refine ⟨?_, ?_⟩
    · show (0 : ℤ) ≤ max 10 _
      exact le_max_of_le_left (by norm_num)
    · show ∀ k, 0 ≤ randResources s (max 0 (min 1 i)) r k
      exact nonneg_randResources s _ r hw
  | some rs =>
    refine ⟨?_, ?_⟩
    · show (0 : ℤ) ≤ max 10 _
      exact le_max_of_le_left (by norm_num)
    · show ∀ k, 0 ≤ (if rs.isEmpty then randResources s (max 0 (min 1 i)) r
        else overrideRes e.resources rs) k
      intro k
      split
      · exact nonneg_randResources s _ r hw k
      · exact nonneg_overrideRes rs e.resources h.2 k

theorem nonneg_update (e : Env) (u : UpdateRand) (h : NonnegEnv e) :
    NonnegEnv (updateEnv e u) := by
  unfold updateEnv
  split
  · exact h
  · exact ⟨le_max_left 0 _, fun k => le_max_left 0 _⟩

theorem nonneg_consumeKits (p : RescuePayload) (acc : Env)
    (h : NonnegEnv acc) : NonnegEnv (consumeKits p acc) := by
  unfold consumeKits
  split
  · exact nonneg_use _ _ _ h
  · exact h

theorem nonneg_consumeFood (p : RescuePayload) (acc : Env)
    (h : NonnegEnv acc) : NonnegEnv (consumeFood p acc) := by
  unfold consumeFood
  split
  · exact nonneg_use _ _ _ h
  · exact h

theorem nonneg_utilityStep (d : UtilityIntent) (acc : Env)
    (h : NonnegEnv acc) : NonnegEnv (utilityStep acc d) := by
  cases d with
  | status => exact h
  | rescue p =>
    show NonnegEnv (if 0 < tickThroughput p then
      (saveVictims (tickThroughput p) (consumeFood p (consumeKits p acc))).1
      else consumeFood p (consumeKits p acc))
    split
    · exact nonneg_save _ _ (nonneg_consumeFood p _ (nonneg_consumeKits p _ h))
    · exact nonneg_consumeFood p _ (nonneg_consumeKits p _ h)

theorem nonneg_utilityAct (e : Env) (h : NonnegEnv e) :
    NonnegEnv (utilityAct e) := by
  unfold utilityAct
  generalize utilityDecide e = l
  induction l generalizing e with
  | nil => exact h
  | cons d t ih => exact ih (utilityStep e d) (nonneg_utilityStep d e h)

theorem nonneg_recruitTry (amt prio : ℤ) (env : Env) (h : NonnegEnv env) :
    NonnegEnv (recruitTry amt env prio).1 := by
  have hu := nonneg_use env ResName.food_packs amt h
  unfold recruitTry
  split
  · next hpos =>
    refine ⟨hu.1, fun k' => ?_⟩
    show 0 ≤ Function.update
      (useResource ResName.food_packs amt env).1.resources
      ResName.repair_crews
      ((useResource ResName.food_packs amt env).1.resources
          ResName.repair_crews +
        Int.fdiv (useResource ResName.food_packs amt env).2
          FOOD_COST_PER_CREW) k'
    rw [Function.update_apply]
    split
    · have hfd : 0 ≤ Int.fdiv (useResource ResName.food_packs amt env).2
          FOOD_COST_PER_CREW :=
        Int.fdiv_nonneg (le_of_lt hpos) (by decide)
      have := hu.2 ResName.repair_crews
      omega
    · exact hu.2 k'
  · exact hu

theorem nonneg_rebuildRecruit (needed prio : ℤ) (env : Env)
    (h : NonnegEnv env) : NonnegEnv (rebuildRecruit needed prio env).1 := by
  unfold rebuildRecruit
  split
  · exact nonneg_recruitTry _ _ _ h
  · exact h

theorem nonneg_rebuildStep (d : RIntent) (acc : Env × List RSent)
    (h : NonnegEnv acc.1) : NonnegEnv (rebuildStep acc d).1 := by
  cases d with
  | repairStatus est prio => exact h
  | milestone m prio => exact h
  | repairRequest needed prio => exact nonneg_rebuildRecruit needed prio acc.1 h

theorem nonneg_rebuildAct (e : Env) (h : NonnegEnv e) :
    NonnegEnv (rebuildAct e).1 := by
  unfold rebuildAct
  generalize rebuildDecide e = l
  generalize hacc : (e, ([] : List RSent)) = acc
  have hacc1 : NonnegEnv acc.1 := by rw [← hacc]; exact h
  clear hacc
  induction l generalizing acc with
  | nil => exact hacc1
  | cons d t ih => exact ih (rebuildStep acc d) (nonneg_rebuildStep d acc hacc1)

/-- Claim C2: in every state reachable by any sequence of the public
operations, `victims` and every resource count are non-negative; and at
the end of every non-idle `update()` tick both are clamped to at least
zero regardless of the starting state. -/
theorem c2_nonneg (e : Env) (h : Reachable e) :
    (0 ≤ e.victims ∧ ∀ k, 0 ≤ e.resources k) ∧
      ∀ e' u, e'.phase ≠ Phase.idle →
        0 ≤ (updateEnv e' u).victims ∧
          ∀ k, 0 ≤ (updateEnv e' u).resources k := by
  have hclamp : ∀ e' (u : UpdateRand), e'.phase ≠ Phase.idle →
      0 ≤ (updateEnv e' u).victims ∧
        ∀ k, 0 ≤ (updateEnv e' u).resources k := by
    intro e' u hph
    unfold updateEnv
    rw [if_neg hph]
    exact ⟨le_max_left 0 _, fun k => le_max_left 0 _⟩
  refine ⟨?_, hclamp⟩
  induction h with
  | init => exact ⟨le_refl 0, fun k => by cases k <;> decide⟩
  | trigger e s i ro r hr hw ih => exact nonneg_trigger e s i ro r hw ih
  | tick e u hr hw ih => exact nonneg_update e u ih
  | use e k a hr ih => exact nonneg_use e k a ih
  | save e c hr ih => exact nonneg_save e c ih
  | reset e hr ih => exact nonneg_reset e
  | uact e hr ih => exact nonneg_utilityAct e ih
  | ract e hr ih => exact nonneg_rebuildAct e ih

theorem c2_nonneg_witness :
    Reachable initEnv ∧
      ((0 ≤ initEnv.victims ∧ ∀ k, 0 ≤ initEnv.resources k) ∧
        ∀ e' u, e'.phase ≠ Phase.idle →
          0 ≤ (updateEnv e' u).victims ∧
            ∀ k, 0 ≤ (updateEnv e' u).resources k) :=
  ⟨Reachable.init, c2_nonneg initEnv Reachable.init⟩

/-- Claim C3, amended: within `update()` the only phase changes are
response→rebuild (exactly when the tick ends with zero victims and no
aftershock), rebuild→recovered (exactly when progress has reached 100),
and recovered→response (exactly when the cooldown counter is no longer
positive, via the automatic re-trigger); `update()` on idle does nothing.
However `trigger_disaster` sets the phase to response from every phase,
not just from idle, so rebuild→response and recovered→response (with a
positive cooldown) are also reachable via a direct trigger call — see the
counterexample. -/
theorem c3_phase_transitions_amended (e : Env) (u : UpdateRand) :
    (e.phase = Phase.idle → (updateEnv e u).phase = Phase.idle) ∧
      (e.phase = Phase.response →
        (updateEnv e u).phase = Phase.response ∨
          ((updateEnv e u).phase = Phase.rebuild ∧
            (updateEnv e u).victims = 0 ∧
            (updateEnv e u).aftershock = false)) ∧
      (e.phase = Phase.rebuild →
        (updateEnv e u).phase = Phase.rebuild ∨
          ((updateEnv e u).phase = Phase.recovered ∧
            100 ≤ (updateEnv e u).rebuild_progress)) ∧
      (e.phase = Phase.recovered →
        (0 < e.cooldown_counter ∧
            (updateEnv e u).phase = Phase.recovered) ∨
          (e.cooldown_counter ≤ 0 ∧
            (updateEnv e u).phase = Phase.response)) ∧
      (∀ s i ro r, (triggerDisaster s i ro r e).phase = Phase.response) := by
  refine ⟨?_, ?_, ?_, ?_, fun s i ro r => rfl⟩
  · intro h
    unfold updateEnv
    rw [if_pos h]
    exact h
  · intro h
    have hni : ¬ e.phase = Phase.idle := by rw [h]; decide
    unfold updateEnv
    rw [if_neg hni, if_pos h]
    unfold updateResponse
    split
    · next hc =>
      right
      refine ⟨rfl, ?_, hc.2⟩
      show max 0 (respVictims { e with time_step := e.time_step + 1 } u) = 0
      have := hc.1
      omega
    · left; exact h
  · intro h
    have hni : ¬ e.phase = Phase.idle := by rw [h]; decide
    have hnr : ¬ e.phase = Phase.response := by rw [h]; decide
    unfold updateEnv
    rw [if_neg hni, if_neg hnr, if_pos h]
    unfold updateRebuild
    split
    · next hc =>
      right
      exact ⟨rfl, hc⟩
    · left; exact h
  · intro h
    have hni : ¬ e.phase = Phase.idle := by rw [h]; decide
    have hnr : ¬ e.phase = Phase.response := by rw [h]; decide
    have hnb : ¬ e.phase = Phase.rebuild := by rw [h]; decide
    unfold updateEnv
    rw [if_neg hni, if_neg hnr, if_neg hnb, if_pos h]
    unfold updateRecovered
    split
    · next hc => exact Or.inl ⟨hc, h⟩
    · next hc => exact Or.inr ⟨le_of_not_lt hc, rfl⟩

/-- A concrete, in-range randomness oracle. -/
def ceResDraw : ResName → ℤ
  | .ambulances => 3
  | .drones => 1
  | .medical_kits => 20
  | .repair_crews => 1
  | .food_packs => 30

def ceTriggerRand : TriggerRand := ⟨fun _ => 0.9, fun _ => 0.9, ceResDraw⟩

theorem ceTriggerRand_wf : ceTriggerRand.Wf "earthquake" :=
  ⟨fun i => show (0 : ℚ) ≤ 0.9 ∧ (0.9 : ℚ) < 1 by norm_num,
    fun i => show (0 : ℚ) ≤ 0.9 ∧ (0.9 : ℚ) < 1 by norm_num,
    by decide⟩

/-- Response state reached by triggering an earthquake at full intensity
with one repair crew (no edge gets blocked: every draw is 0.9). -/
def c3Env1 : Env := triggerDisaster "earthquake" 1 none ceTriggerRand initEnv

/-- All victims rescued at once. -/
def c3Env2 : Env := (saveVictims 1000000 c3Env1).1

def ceUpdateRand : UpdateRand where
  rAfter := 0.9
  rRoad := 0.9
  rDecay := 0
  rVict := 0.9
  newVict := 1
  rInc := 0
  shuffled := []
  rRestore := fun _ => 0
  cooldown := 2
  scenChoice := "earthquake"
  rIntensity := 1/2
  trig := ceTriggerRand

theorem ceUpdateRand_wf (e : Env) (h : blockedIdx e = []) :
    ceUpdateRand.Wf e := by
  refine ⟨by with_unfolding_all decide, by with_unfolding_all decide,
    by with_unfolding_all decide, by with_unfolding_all decide,
    by with_unfolding_all decide, by with_unfolding_all decide,
    ?_, by with_unfolding_all decide, by with_unfolding_all decide,
    by with_unfolding_all decide, by with_unfolding_all decide,
    ceTriggerRand_wf⟩
  rw [h]
  exact List.Perm.refl []

/-- The tick on which the response phase ends: no aftershock, victims
already zero, so the phase becomes rebuild. -/
def c3Env3 : Env := updateEnv c3Env2 ceUpdateRand

/-- The rebuild-phase state of the counterexample runs is reachable:
trigger, rescue everyone, one tick. -/
theorem c3Env3_reachable : Reachable c3Env3 :=
  Reachable.tick c3Env2 ceUpdateRand
    (Reachable.save c3Env1 1000000
      (Reachable.trigger initEnv "earthquake" 1 none ceTriggerRand
        Reachable.init ceTriggerRand_wf))
    (ceUpdateRand_wf c3Env2 (by with_unfolding_all decide))

/-- Claim C3 is falsified as stated: a reachable rebuild-phase state is
moved straight to response by a (well-formed) `trigger_disaster` call,
a phase transition outside the claimed list. -/
theorem c3_phase_counterexample :
    Reachable c3Env3 ∧ c3Env3.phase = Phase.rebuild ∧
      ceTriggerRand.Wf "earthquake" ∧
      (triggerDisaster "earthquake" 1 none ceTriggerRand c3Env3).phase =
        Phase.response :=
  ⟨c3Env3_reachable, by with_unfolding_all decide, ceTriggerRand_wf, rfl⟩

/-! ## Claim C5: earthquake at full intensity -/

/-- The code's victim formula on the full graph at seismic level 1:
per-node truncation before summation. -/
def quakeFloorSum : ℤ :=
  victimsFor (List.range karachiNodes.length) 1 "earthquake"

/-- The claim's literal formula: the untruncated population-weighted sum
over the affected nodes (all of them), used for comparison with the
code's per-node-truncating computation. -/
def quakeExactSum : ℚ :=
  (karachiNodes.map (fun n =>
    (n.population : ℚ) * 0.01 * 1 * n.vuln "earthquake")).sum

/-- Claim C5, amended: after `trigger_disaster("earthquake", 1.0)` the
affected set is all node ids and the victim count is
`max(10, Σ int(population*0.01*1.0*vuln))` — the truncation happens per
node before summation, giving 271039 (the untruncated sum of the claim's
literal formula is 271042.718, see the counterexample). -/
theorem c5_quake_victims_amended (e : Env) (r : TriggerRand) :
    (triggerDisaster "earthquake" 1 none r e).affected_nodes =
        List.range karachiNodes.length ∧
      (triggerDisaster "earthquake" 1 none r e).victims =
        max 10 quakeFloorSum ∧
      quakeFloorSum = 271039 := by
  refine ⟨rfl, rfl, by with_unfolding_all decide⟩

/-- Claim C5 is falsified as stated: the code computes 271039 victims,
while `max(10, Σ population×0.01×1.0×vulnerability)` with the sum taken
exactly (no per-node truncation) is 271042.718. -/
theorem c5_quake_victims_counterexample :
    (triggerDisaster "earthquake" 1 none ceTriggerRand initEnv).victims =
        271039 ∧
      quakeExactSum = 135521359 / 500 ∧
      ((triggerDisaster "earthquake" 1 none ceTriggerRand
          initEnv).victims : ℚ) ≠ max 10 quakeExactSum := by
  have h1 : (triggerDisaster "earthquake" 1 none ceTriggerRand
      initEnv).victims = 271039 := by with_unfolding_all decide
  have h2 : quakeExactSum = 135521359 / 500 := by
    simp only [quakeExactSum, karachiNodes, Node.vuln, List.map_cons,
      List.map_nil, List.sum_cons, List.sum_nil]
    norm_num
  refine ⟨h1, h2, ?_⟩
  rw [h1, h2, max_eq_right (by norm_num : (10 : ℚ) ≤ 135521359 / 500)]
  norm_num

/-- Claim C10: for a ledger key with a non-negative count and a negative
amount, `use_resource` returns the negative amount itself, increases the
resource count by its magnitude and drives the used-counter down by the
same magnitude; the clamp protects only against over-consumption, so
ledger non-negativity (counts and used-counters) is preserved exactly
under the precondition `amount ≥ 0`, and a negative amount sends a
used-counter below zero from the initial state. -/
theorem c10_use_resource_negative (e : Env) (k : ResName) (a : ℤ)
    (ha : a < 0) (h0 : 0 ≤ e.resources k) :
    ((useResource k a e).2 = a ∧
        (useResource k a e).1.resources k = e.resources k + (-a) ∧
        (useResource k a e).1.resources_used k =
          e.resources_used k - (-a)) ∧
      (∀ e' k' b, 0 ≤ b → (∀ j, 0 ≤ e'.resources j) →
        (∀ j, 0 ≤ e'.resources_used j) →
        (∀ j, 0 ≤ (useResource k' b e').1.resources j) ∧
          ∀ j, 0 ≤ (useResource k' b e').1.resources_used j) ∧
      (useResource ResName.food_packs (-1) initEnv).1.resources_used
          ResName.food_packs < 0 := by
  have hmin : min a (e.resources k) = a := min_eq_left (by omega)
  refine ⟨⟨?_, ?_, ?_⟩, ?_, by decide⟩
  · show min a (e.resources k) = a
    exact hmin
  · show Function.update e.resources k
      (e.resources k - min a (e.resources k)) k = _
    rw [Function.update_same, hmin]
    ring
  · show Function.update e.resources_used k
      (e.resources_used k + min a (e.resources k)) k = _
    rw [Function.update_same, hmin]
    ring
  · intro e' k' b hb hres hused
    constructor
    · intro j
      show 0 ≤ Function.update e'.resources k'
        (e'.resources k' - min b (e'.resources k')) j
      rw [Function.update_apply]
      split
      · have := hres k'
        omega
      · exact hres j
    · intro j
      show 0 ≤ Function.update e'.resources_used k'
        (e'.resources_used k' + min b (e'.resources k')) j
      rw [Function.update_apply]
      split
      · have h1 := hused k'
        have h2 := hres k'
        omega
      · exact hused j

/-! ## Claim C6: UtilityAgent allocation saturation -/

theorem useResource_victims_eq (k : ResName) (a : ℤ) (e : Env) :
    (useResource k a e).1.victims = e.victims := rfl

theorem useResource_saved_eq (k : ResName) (a : ℤ) (e : Env) :
    (useResource k a e).1.victims_saved = e.victims_saved := rfl

theorem useResource_res_self (k : ResName) (a : ℤ) (e : Env) :
    (useResource k a e).1.resources k =
      e.resources k - min a (e.resources k) :=
  Function.update_same _ _ _

theorem useResource_res_ne (k : ResName) (a : ℤ) (e : Env) (k' : ResName)
    (h : k' ≠ k) :
    (useResource k a e).1.resources k' = e.resources k' :=
  Function.update_noteq h _ _

theorem saveVictims_res_eq (c : ℤ) (e : Env) (k : ResName) :
    (saveVictims c e).1.resources k = e.resources k := rfl

theorem saveVictims_victims_eq (c : ℤ) (e : Env) :
    (saveVictims c e).1.victims = max 0 (e.victims - min c e.victims) := rfl

theorem saveVictims_saved_eq (c : ℤ) (e : Env) :
    (saveVictims c e).1.victims_saved =
      e.victims_saved + min c e.victims := rfl

theorem utilityPayload_kits (e : Env) :
    (utilityPayload e).allocKits =
      min (e.resources ResName.medical_kits) (min 5 (Int.fdiv
        (e.victims + MEDICAL_KIT_CAPACITY - 1) MEDICAL_KIT_CAPACITY)) := rfl

theorem utilityPayload_food (e : Env) :
    (utilityPayload e).allocFood =
      min (e.resources ResName.food_packs) (min 3 (Int.fdiv
        (e.victims + FOOD_PACK_CAPACITY - 1) FOOD_PACK_CAPACITY)) := rfl

theorem consumeKits_kits (p : RescuePayload) (e : Env) :
    (consumeKits p e).resources ResName.medical_kits =
      e.resources ResName.medical_kits -
        (if 0 < p.allocKits then
          min p.allocKits (e.resources ResName.medical_kits) else 0) := by
  unfold consumeKits
  split
  · rw [useResource_res_self]
  · omega

theorem consumeKits_food (p : RescuePayload) (e : Env) :
    (consumeKits p e).resources ResName.food_packs =
      e.resources ResName.food_packs := by
  unfold consumeKits
  split
  · exact useResource_res_ne _ _ _ _ (by decide)
  · rfl

theorem consumeKits_victims (p : RescuePayload) (e : Env) :
    (consumeKits p e).victims = e.victims := by
  unfold consumeKits
  split <;> rfl

theorem consumeKits_saved (p : RescuePayload) (e : Env) :
    (consumeKits p e).victims_saved = e.victims_saved := by
  unfold consumeKits
  split <;> rfl

theorem consumeFood_food (p : RescuePayload) (e : Env) :
    (consumeFood p e).resources ResName.food_packs =
      e.resources ResName.food_packs -
        (if 0 < p.allocFood then
          min p.allocFood (e.resources ResName.food_packs) else 0) := by
  unfold consumeFood
  split
  · rw [useResource_res_self]
  · omega

theorem consumeFood_kits (p : RescuePayload) (e : Env) :
    (consumeFood p e).resources ResName.medical_kits =
      e.resources ResName.medical_kits := by
  unfold consumeFood
  split
  · exact useResource_res_ne _ _ _ _ (by decide)
  · rfl

theorem consumeFood_victims (p : RescuePayload) (e : Env) :
    (consumeFood p e).victims = e.victims := by
  unfold consumeFood
  split <;> rfl

theorem consumeFood_saved (p : RescuePayload) (e : Env) :
    (consumeFood p e).victims_saved = e.victims_saved := by
  unfold consumeFood
  split <;> rfl

/-- Claim C6: in one `UtilityAgent.act` tick, the medical kits and food
packs consumed never exceed what was available at the start of the tick
(and are capped at 5 kits and 3 packs), the victims saved never exceed
the victims present before the tick, the victim count decreases by
exactly the saved amount, and `victims_saved` increases by it. -/
theorem c6_utility_saturation (e : Env)
    (hv : 0 ≤ e.victims) (hk : 0 ≤ e.resources ResName.medical_kits)
    (hf : 0 ≤ e.resources ResName.food_packs) :
    (0 ≤ e.resources ResName.medical_kits -
        (utilityAct e).resources ResName.medical_kits ∧
      e.resources ResName.medical_kits -
          (utilityAct e).resources ResName.medical_kits ≤
        min (e.resources ResName.medical_kits) 5) ∧
      (0 ≤ e.resources ResName.food_packs -
          (utilityAct e).resources ResName.food_packs ∧
        e.resources ResName.food_packs -
            (utilityAct e).resources ResName.food_packs ≤
          min (e.resources ResName.food_packs) 3) ∧
      (0 ≤ (utilityAct e).victims_saved - e.victims_saved ∧
        (utilityAct e).victims_saved - e.victims_saved ≤ e.victims ∧
        e.victims = (utilityAct e).victims +
          ((utilityAct e).victims_saved - e.victims_saved)) := by
  unfold utilityAct utilityDecide
  split
  · simp only [List.foldl_nil]
    omega
  · split
    · simp only [List.foldl_nil]
      omega
    · split
      · -- the rescue intent
        simp only [List.foldl_cons, List.foldl_nil, utilityStep]
        split
        · simp only [saveVictims_res_eq, saveVictims_victims_eq,
            saveVictims_saved_eq, consumeFood_kits, consumeFood_food,
            consumeFood_victims, consumeFood_saved, consumeKits_kits,
            consumeKits_food, consumeKits_victims, consumeKits_saved,
            utilityPayload_kits, utilityPayload_food]
          split_ifs <;> omega
        · simp only [consumeFood_kits, consumeFood_food,
            consumeFood_victims, consumeFood_saved, consumeKits_kits,
            consumeKits_food, consumeKits_victims, consumeKits_saved,
            utilityPayload_kits, utilityPayload_food]
          split_ifs <;> omega
      · -- the status intent
        simp only [List.foldl_cons, List.foldl_nil, utilityStep]
        omega

theorem c6_utility_saturation_witness :
    (0 ≤ initEnv.victims ∧ 0 ≤ initEnv.resources ResName.medical_kits ∧
        0 ≤ initEnv.resources ResName.food_packs) ∧
      ((0 ≤ initEnv.resources ResName.medical_kits -
          (utilityAct initEnv).resources ResName.medical_kits ∧
        initEnv.resources ResName.medical_kits -
            (utilityAct initEnv).resources ResName.medical_kits ≤
          min (initEnv.resources ResName.medical_kits) 5) ∧
      (0 ≤ initEnv.resources ResName.food_packs -
          (utilityAct initEnv).resources ResName.food_packs ∧
        initEnv.resources ResName.food_packs -
            (utilityAct initEnv).resources ResName.food_packs ≤
          min (initEnv.resources ResName.food_packs) 3) ∧
      (0 ≤ (utilityAct initEnv).victims_saved - initEnv.victims_saved ∧
        (utilityAct initEnv).victims_saved - initEnv.victims_saved ≤
          initEnv.victims ∧
        initEnv.victims = (utilityAct initEnv).victims +
          ((utilityAct initEnv).victims_saved -
            initEnv.victims_saved))) :=
  ⟨⟨by decide, by decide, by decide⟩,
    c6_utility_saturation initEnv (by decide) (by decide) (by decide)⟩

theorem c10_use_resource_negative_witness :
    ((-1 : ℤ) < 0 ∧ 0 ≤ initEnv.resources ResName.food_packs) ∧
      (((useResource ResName.food_packs (-1) initEnv).2 = -1 ∧
          (useResource ResName.food_packs (-1) initEnv).1.resources
              ResName.food_packs =
            initEnv.resources ResName.food_packs + -(-1) ∧
          (useResource ResName.food_packs (-1) initEnv).1.resources_used
              ResName.food_packs =
            initEnv.resources_used ResName.food_packs - -(-1)) ∧
        (∀ e' k' b, 0 ≤ b → (∀ j, 0 ≤ e'.resources j) →
          (∀ j, 0 ≤ e'.resources_used j) →
          (∀ j, 0 ≤ (useResource k' b e').1.resources j) ∧
            ∀ j, 0 ≤ (useResource k' b e').1.resources_used j) ∧
        (useResource ResName.food_packs (-1) initEnv).1.resources_used
            ResName.food_packs < 0) :=
  ⟨⟨by decide, by decide⟩,
    c10_use_resource_negative initEnv ResName.food_packs (-1) (by decide)
      (by decide)⟩

/-! ## Claim C7: RebuildAgent crew recruitment -/

/-- The number of crews the recruitment branch mobilises:
`min(needed, food // 5)` for the standing shortfall. -/
def recruitAdd (e : Env) : ℤ :=
  min (MIN_CREWS_FOR_REBUILD - e.resources ResName.repair_crews)
    (Int.fdiv (e.resources ResName.food_packs) FOOD_COST_PER_CREW)

theorem addCrews_crews (n : ℤ) (env : Env) :
    (addCrews n env).resources ResName.repair_crews =
      env.resources ResName.repair_crews + n := by
  show Function.update env.resources ResName.repair_crews
    (env.resources ResName.repair_crews + n) ResName.repair_crews = _
  rw [Function.update_same]

theorem addCrews_res_ne (n : ℤ) (env : Env) (k : ResName)
    (h : k ≠ ResName.repair_crews) :
    (addCrews n env).resources k = env.resources k := by
  show Function.update env.resources ResName.repair_crews
    (env.resources ResName.repair_crews + n) k = _
  rw [Function.update_noteq h]

theorem rsent_mtype_mk (a : String) (p c f : ℤ) :
    (RSent.mk a p c f).mtype = a := rfl

theorem milestoneFor_shape (p : ℚ) :
    milestoneFor p = [] ∨ ∃ m, milestoneFor p = [RIntent.milestone m 4] := by
  unfold milestoneFor
  cases h : milestoneBands.find? (fun (m : ℤ) =>
      decide ((m : ℚ) ≤ p ∧ p < (m : ℚ) + 5)) with
  | none => exact Or.inl rfl
  | some m => exact Or.inr ⟨m, rfl⟩

theorem rebuildDecide_low_crews (e : Env) (hph : e.phase = Phase.rebuild)
    (hcrews : e.resources ResName.repair_crews < MIN_CREWS_FOR_REBUILD) :
    rebuildDecide e =
      RIntent.repairStatus (rebuildEstimate e) 6 ::
        RIntent.repairRequest
          (MIN_CREWS_FOR_REBUILD - e.resources ResName.repair_crews) 8 ::
        milestoneFor e.rebuild_progress := by
  unfold rebuildDecide
  rw [if_neg (fun hne => hne hph), if_pos hcrews]
  rfl

theorem rebuildAct_low_crews (e : Env) (hph : e.phase = Phase.rebuild)
    (hcrews : e.resources ResName.repair_crews < MIN_CREWS_FOR_REBUILD) :
    (rebuildAct e).1 = (rebuildRecruit
        (MIN_CREWS_FOR_REBUILD - e.resources ResName.repair_crews) 8 e).1 ∧
      ((rebuildAct e).2 = [⟨"repair_status", 6, 0, 0⟩,
          (rebuildRecruit
            (MIN_CREWS_FOR_REBUILD - e.resources ResName.repair_crews)
            8 e).2] ∨
        (rebuildAct e).2 = [⟨"repair_status", 6, 0, 0⟩,
          (rebuildRecruit
            (MIN_CREWS_FOR_REBUILD - e.resources ResName.repair_crews)
            8 e).2, ⟨"milestone", 4, 0, 0⟩]) := by
  unfold rebuildAct
  rw [rebuildDecide_low_crews e hph hcrews]
  rcases milestoneFor_shape e.rebuild_progress with h | ⟨m, h⟩ <;> rw [h]
  · exact ⟨rfl, Or.inl rfl⟩
  · exact ⟨rfl, Or.inr rfl⟩

theorem rebuildRecruit_success (need : ℤ) (e : Env) (hneed : 1 ≤ need)
    (hfood : 5 ≤ e.resources ResName.food_packs) :
    (rebuildRecruit need 8 e).1.resources ResName.repair_crews =
        e.resources ResName.repair_crews +
          min need (Int.fdiv (e.resources ResName.food_packs) 5) ∧
      (rebuildRecruit need 8 e).1.resources ResName.food_packs =
        e.resources ResName.food_packs -
          min need (Int.fdiv (e.resources ResName.food_packs) 5) * 5 ∧
      1 ≤ min need (Int.fdiv (e.resources ResName.food_packs) 5) ∧
      (rebuildRecruit need 8 e).2 =
        ⟨"repair_alloc", 8,
          min need (Int.fdiv (e.resources ResName.food_packs) 5),
          min need (Int.fdiv (e.resources ResName.food_packs) 5) * 5⟩ := by
  have hconv : Int.fdiv (e.resources ResName.food_packs) 5 =
      e.resources ResName.food_packs / 5 :=
    Int.fdiv_eq_ediv _ (by norm_num)
  have hdivpos : 1 ≤ e.resources ResName.food_packs / 5 := by omega
  have hadd : 1 ≤ min need (Int.fdiv (e.resources ResName.food_packs) 5) := by
    rw [hconv]; omega
  have hamtle : min need (Int.fdiv (e.resources ResName.food_packs) 5) * 5 ≤
      e.resources ResName.food_packs := by
    rw [hconv]
    have := Int.ediv_add_emod (e.resources ResName.food_packs) 5
    have := Int.emod_nonneg (e.resources ResName.food_packs)
      (by norm_num : (5 : ℤ) ≠ 0)
    omega
  have hmin : min (min need (Int.fdiv (e.resources ResName.food_packs) 5) * 5)
      (e.resources ResName.food_packs) =
      min need (Int.fdiv (e.resources ResName.food_packs) 5) * 5 :=
    min_eq_left hamtle
  have hused : (useResource ResName.food_packs
      (min need (Int.fdiv (e.resources ResName.food_packs) 5) * 5) e).2 =
      min need (Int.fdiv (e.resources ResName.food_packs) 5) * 5 := hmin
  have hcrewsAdded : Int.fdiv
      (min need (Int.fdiv (e.resources ResName.food_packs) 5) * 5) 5 =
      min need (Int.fdiv (e.resources ResName.food_packs) 5) :=
    Int.mul_fdiv_cancel _ (by norm_num)
  have hgate : 0 < Int.fdiv (e.resources ResName.food_packs)
      FOOD_COST_PER_CREW := by
    show 0 < Int.fdiv (e.resources ResName.food_packs) 5
    rw [hconv]; omega
  unfold rebuildRecruit
  rw [if_pos hgate]
  unfold recruitTry
  simp only [FOOD_COST_PER_CREW]
  rw [hused]
  rw [if_pos (by omega : (0 : ℤ) <
    min need (Int.fdiv (e.resources ResName.food_packs) 5) * 5)]
  refine ⟨?_, ?_, hadd, ?_⟩
  · rw [addCrews_crews, useResource_res_ne _ _ _ _ (by decide), hcrewsAdded]
  · rw [addCrews_res_ne _ _ _ (by decide), useResource_res_self, hmin]
  · rw [hcrewsAdded]

theorem rebuildRecruit_blocked (need : ℤ) (e : Env)
    (hfood0 : 0 ≤ e.resources ResName.food_packs)
    (hfood : e.resources ResName.food_packs < 5) :
    rebuildRecruit need 8 e =
      (e, ⟨"repair_blocked", 6, 0, 0⟩) := by
  have hconv : Int.fdiv (e.resources ResName.food_packs) 5 =
      e.resources ResName.food_packs / 5 :=
    Int.fdiv_eq_ediv _ (by norm_num)
  have hgate : ¬ 0 < Int.fdiv (e.resources ResName.food_packs)
      FOOD_COST_PER_CREW := by
    show ¬ 0 < Int.fdiv (e.resources ResName.food_packs) 5
    rw [hconv]
    omega
  unfold rebuildRecruit
  rw [if_neg hgate]
  norm_num

/-- Claim C7: on a `repair_request`, `RebuildAgent.act` converts food to
repair crews at exactly 5 food packs per crew via `use_resource`: the
crews added equal the food actually consumed divided by 5, a
`repair_alloc` message is emitted on success and no `repair_blocked`;
when the available food cannot back even one crew, the environment is
untouched and a `repair_blocked` message is emitted at priority 6,
reduced from the request's 8, with no `repair_alloc` — crews are never
created without the corresponding food consumption. -/
theorem c7_rebuild_recruitment (e : Env) (hph : e.phase = Phase.rebuild)
    (hcrews : e.resources ResName.repair_crews < MIN_CREWS_FOR_REBUILD)
    (hfood0 : 0 ≤ e.resources ResName.food_packs) :
    (5 ≤ e.resources ResName.food_packs →
      (rebuildAct e).1.resources ResName.repair_crews =
          e.resources ResName.repair_crews + recruitAdd e ∧
        (rebuildAct e).1.resources ResName.food_packs =
          e.resources ResName.food_packs - recruitAdd e * 5 ∧
        1 ≤ recruitAdd e ∧
        (⟨"repair_alloc", 8, recruitAdd e, recruitAdd e * 5⟩ : RSent) ∈
          (rebuildAct e).2 ∧
        ∀ msg ∈ (rebuildAct e).2, msg.mtype ≠ "repair_blocked") ∧
      (e.resources ResName.food_packs < 5 →
        (rebuildAct e).1 = e ∧
          (⟨"repair_blocked", 6, 0, 0⟩ : RSent) ∈ (rebuildAct e).2 ∧
          ∀ msg ∈ (rebuildAct e).2, msg.mtype ≠ "repair_alloc") ∧
      ((rebuildAct e).1.resources ResName.repair_crews -
          e.resources ResName.repair_crews) * 5 =
        e.resources ResName.food_packs -
          (rebuildAct e).1.resources ResName.food_packs := by
  obtain ⟨henv, hmsgs⟩ := rebuildAct_low_crews e hph hcrews
  have hR : recruitAdd e =
      min (MIN_CREWS_FOR_REBUILD - e.resources ResName.repair_crews)
        (Int.fdiv (e.resources ResName.food_packs) 5) := rfl
  rw [hR]
  have hneed : 1 ≤ MIN_CREWS_FOR_REBUILD -
      e.resources ResName.repair_crews := by
    unfold MIN_CREWS_FOR_REBUILD at *
    omega
  by_cases hfood : 5 ≤ e.resources ResName.food_packs
  · obtain ⟨h1, h2, h3, h4⟩ := rebuildRecruit_success _ e hneed hfood
    refine ⟨fun _ => ⟨?_, ?_, h3, ?_, ?_⟩, fun hlt => absurd hfood
      (by omega), ?_⟩
    · rw [henv]; exact h1
    · rw [henv]; exact h2
    · rcases hmsgs with hm | hm <;> rw [hm, h4] <;> simp
    · intro msg hmem
      rcases hmsgs with hm | hm
      · rw [hm, h4] at hmem
        simp only [List.mem_cons, List.mem_singleton,
          List.not_mem_nil, or_false] at hmem
        rcases hmem with rfl | rfl <;> rw [rsent_mtype_mk] <;> decide
      · rw [hm, h4] at hmem
        simp only [List.mem_cons, List.mem_singleton,
          List.not_mem_nil, or_false] at hmem
        rcases hmem with rfl | rfl | rfl <;> rw [rsent_mtype_mk] <;> decide
    · rw [henv, h1, h2]
      ring
  · have hlt : e.resources ResName.food_packs < 5 := by omega
    have hb := rebuildRecruit_blocked
      (MIN_CREWS_FOR_REBUILD - e.resources ResName.repair_crews) e hfood0 hlt
    refine ⟨fun hge => absurd hge hfood, fun _ => ⟨?_, ?_, ?_⟩, ?_⟩
    · rw [henv, hb]
    · rcases hmsgs with hm | hm <;> rw [hm, hb] <;> simp
    · intro msg hmem
      rcases hmsgs with hm | hm
      · rw [hm, hb] at hmem
        simp only [List.mem_cons, List.mem_singleton,
          List.not_mem_nil, or_false] at hmem
        rcases hmem with rfl | rfl <;> rw [rsent_mtype_mk] <;> decide
      · rw [hm, hb] at hmem
        simp only [List.mem_cons, List.mem_singleton,
          List.not_mem_nil, or_false] at hmem
        rcases hmem with rfl | rfl | rfl <;> rw [rsent_mtype_mk] <;> decide
    · rw [henv, hb]
      ring

/-- A concrete rebuild-phase environment: one crew, 30 food packs. -/
def c7Env : Env :=
  { initEnv with
    phase := Phase.rebuild
    resources := Function.update defaultResources ResName.repair_crews 1 }

theorem c7_rebuild_recruitment_witness :
    (c7Env.phase = Phase.rebuild ∧
        c7Env.resources ResName.repair_crews < MIN_CREWS_FOR_REBUILD ∧
        0 ≤ c7Env.resources ResName.food_packs) ∧
      ((5 ≤ c7Env.resources ResName.food_packs →
        (rebuildAct c7Env).1.resources ResName.repair_crews =
            c7Env.resources ResName.repair_crews + recruitAdd c7Env ∧
          (rebuildAct c7Env).1.resources ResName.food_packs =
            c7Env.resources ResName.food_packs - recruitAdd c7Env * 5 ∧
          1 ≤ recruitAdd c7Env ∧
          (⟨"repair_alloc", 8, recruitAdd c7Env,
            recruitAdd c7Env * 5⟩ : RSent) ∈ (rebuildAct c7Env).2 ∧
          ∀ msg ∈ (rebuildAct c7Env).2, msg.mtype ≠ "repair_blocked") ∧
      (c7Env.resources ResName.food_packs < 5 →
        (rebuildAct c7Env).1 = c7Env ∧
          (⟨"repair_blocked", 6, 0, 0⟩ : RSent) ∈ (rebuildAct c7Env).2 ∧
          ∀ msg ∈ (rebuildAct c7Env).2, msg.mtype ≠ "repair_alloc") ∧
      ((rebuildAct c7Env).1.resources ResName.repair_crews -
          c7Env.resources ResName.repair_crews) * 5 =
        c7Env.resources ResName.food_packs -
          (rebuildAct c7Env).1.resources ResName.food_packs) :=
  ⟨⟨rfl, by decide, by decide⟩,
    c7_rebuild_recruitment c7Env rfl (by decide) (by decide)⟩

/-! ## Claim C9: rebuild milestones -/

theorem milestoneFor_mem_iff (p : ℚ) (m prio : ℤ) :
    RIntent.milestone m prio ∈ milestoneFor p ↔
      (prio = 4 ∧ m ∈ milestoneBands ∧ (m : ℚ) ≤ p ∧ p < (m : ℚ) + 5) := by
  constructor
  · intro hmem
    unfold milestoneFor at hmem
    cases hfind : milestoneBands.find? (fun (mm : ℤ) =>
        decide ((mm : ℚ) ≤ p ∧ p < (mm : ℚ) + 5)) with
    | none =>
      rw [hfind] at hmem
      exact absurd hmem (List.not_mem_nil _)
    | some mf =>
      rw [hfind] at hmem
      rw [List.mem_singleton] at hmem
      injection hmem with hm hp
      subst hm
      subst hp
      refine ⟨rfl, List.mem_of_find?_eq_some hfind, ?_⟩
      have hpred := List.find?_some hfind
      simpa using hpred
  · rintro ⟨rfl, hmb, h1, h2⟩
    have hfind : milestoneBands.find? (fun (mm : ℤ) =>
        decide ((mm : ℚ) ≤ p ∧ p < (mm : ℚ) + 5)) = some m := by
      unfold milestoneBands
      simp only [milestoneBands, List.mem_cons, List.not_mem_nil,
        or_false] at hmb
      rcases hmb with rfl | rfl | rfl | rfl
      · exact List.find?_cons_of_pos _ (decide_eq_true ⟨h1, h2⟩)
      · rw [List.find?_cons_of_neg, List.find?_cons_of_pos]
        · exact decide_eq_true ⟨h1, h2⟩
        · simp only [decide_eq_true_eq]
          rintro ⟨-, hlt⟩
          push_cast at h1 hlt
          linarith
      · rw [List.find?_cons_of_neg, List.find?_cons_of_neg,
          List.find?_cons_of_pos]
        · exact decide_eq_true ⟨h1, h2⟩
        · simp only [decide_eq_true_eq]
          rintro ⟨-, hlt⟩
          push_cast at h1 hlt
          linarith
        · simp only [decide_eq_true_eq]
          rintro ⟨-, hlt⟩
          push_cast at h1 hlt
          linarith
      · rw [List.find?_cons_of_neg, List.find?_cons_of_neg,
          List.find?_cons_of_neg, List.find?_cons_of_pos]
        · exact decide_eq_true ⟨h1, h2⟩
        · simp only [decide_eq_true_eq]
          rintro ⟨-, hlt⟩
          push_cast at h1 hlt
          linarith
        · simp only [decide_eq_true_eq]
          rintro ⟨-, hlt⟩
          push_cast at h1 hlt
          linarith
        · simp only [decide_eq_true_eq]
          rintro ⟨-, hlt⟩
          push_cast at h1 hlt
          linarith
    unfold milestoneFor
    rw [hfind]
    exact List.mem_singleton.mpr rfl

/-- Claim C9, amended: on every rebuild tick, `RebuildAgent.decide`
emits a milestone intent (at priority 4) for band `m` exactly when the
current progress lies in `[m, m+5)` for `m ∈ {25, 50, 75, 90}` — at most
one per tick.  There is no per-band dedup state, so when progress stays
inside a band across ticks the same band's milestone is emitted again,
falsifying the once-per-band reading (see the counterexample). -/
theorem c9_milestone_per_tick (e : Env) (hph : e.phase = Phase.rebuild)
    (m prio : ℤ) :
    RIntent.milestone m prio ∈ rebuildDecide e ↔
      (prio = 4 ∧ m ∈ milestoneBands ∧ (m : ℚ) ≤ e.rebuild_progress ∧
        e.rebuild_progress < (m : ℚ) + 5) := by
  unfold rebuildDecide
  rw [if_neg (fun hne => hne hph)]
  rw [← milestoneFor_mem_iff e.rebuild_progress m prio]
  constructor
  · intro hmem
    rcases List.mem_append.mp hmem with h | h
    · rcases List.mem_append.mp h with h2 | h2
      · simp at h2
      · split at h2 <;> simp at h2
    · exact h
  · intro hmem
    exact List.mem_append.mpr (Or.inr hmem)

theorem c9_milestone_per_tick_witness :
    c7Env.phase = Phase.rebuild ∧
      (RIntent.milestone 25 4 ∈ rebuildDecide c7Env ↔
        ((4 : ℤ) = 4 ∧ (25 : ℤ) ∈ milestoneBands ∧
          ((25 : ℤ) : ℚ) ≤ c7Env.rebuild_progress ∧
          c7Env.rebuild_progress < ((25 : ℤ) : ℚ) + 5)) :=
  ⟨rfl, c9_milestone_per_tick c7Env rfl 25 4⟩

/-- Resources for the counterexample run: one repair crew, no drones. -/
def c9Res : List (ResName × ℤ) :=
  [(ResName.drones, 0), (ResName.repair_crews, 1)]

/-- Earthquake triggered, all victims saved, one tick entering rebuild. -/
def c9Base : Env :=
  updateEnv (saveVictims 1000000 (triggerDisaster "earthquake" 1
    (some c9Res) ceTriggerRand initEnv)).1 ceUpdateRand

/-- The rebuild trajectory: with one crew and no drones the increment is
exactly 1.6 per tick, so progress passes 25.6 and 27.2 on consecutive
ticks — both inside the band [25, 30). -/
def c9Chain : ℕ → Env
  | 0 => c9Base
  | n + 1 => updateEnv (c9Chain n) ceUpdateRand

set_option maxRecDepth 4000 in
/-- Claim C9 is falsified as stated: on a reachable rebuild trajectory,
two consecutive ticks of the same rebuild phase (progress 25.6, then
27.2) both emit the milestone intent for band 25. -/
theorem c9_milestone_counterexample :
    Reachable (c9Chain 16) ∧
      (c9Chain 16).phase = Phase.rebuild ∧
      c9Chain 17 = updateEnv (c9Chain 16) ceUpdateRand ∧
      (c9Chain 17).phase = Phase.rebuild ∧
      RIntent.milestone 25 4 ∈ rebuildDecide (c9Chain 16) ∧
      RIntent.milestone 25 4 ∈ rebuildDecide (c9Chain 17) := by
  have w : ∀ e' : Env, Reachable e' → blockedIdx e' = [] →
      Reachable (updateEnv e' ceUpdateRand) :=
    fun e' he hb => Reachable.tick e' ceUpdateRand he (ceUpdateRand_wf e' hb)
  have h0 : Reachable c9Base := by
    apply w
    · exact Reachable.save _ 1000000 (Reachable.trigger initEnv
        "earthquake" 1 (some c9Res) ceTriggerRand Reachable.init
        ceTriggerRand_wf)
    · with_unfolding_all decide
  refine ⟨?_, by with_unfolding_all decide, rfl,
    by with_unfolding_all decide, by with_unfolding_all decide,
    by with_unfolding_all decide⟩
  exact w _ (w _ (w _ (w _ (w _ (w _ (w _ (w _ (w _ (w _ (w _ (w _ (w _
    (w _ (w _ (w _ h0
    (by with_unfolding_all decide)) (by with_unfolding_all decide))
    (by with_unfolding_all decide)) (by with_unfolding_all decide))
    (by with_unfolding_all decide)) (by with_unfolding_all decide))
    (by with_unfolding_all decide)) (by with_unfolding_all decide))
    (by with_unfolding_all decide)) (by with_unfolding_all decide))
    (by with_unfolding_all decide)) (by with_unfolding_all decide))
    (by with_unfolding_all decide)) (by with_unfolding_all decide))
    (by with_unfolding_all decide)) (by with_unfolding_all decide)

/-! ## Goal-based agent: graph and Dijkstra pathfinding (`goal_agent.py`)

`_build_adjacency_list` returns `{node_id: [(neighbor, distance, blocked),
...]}`; it is modelled as a total function `ℕ → List AdjEntry` that is `[]`
away from the populated keys, matching the later `adj.get(node, [])`.
`heapq` entries `(dist, node, path)` become `PQE`; `heappop` extracts the
minimum in Python tuple-lexicographic order, modelled by `popMin` (entries
tied in the full order are equal as values, so taking the leftmost minimum
is faithful).  The `while pq` loop gets explicit fuel; `dijkstraLoop_isSome`
below shows the fuel passed by `planRoute` is always sufficient, so the
fuel-exhausted branch never fires there. -/

structure AdjEntry where
  nbr : ℕ
  dist : ℚ
  blocked : Bool
deriving DecidableEq

/-- The entries edge `e` appends to key `n`: first `adj[from].append`,
then `adj[to].append` (both fire for a self-loop). -/
def edgeEntries (n : ℕ) (e : Edge) : List AdjEntry :=
  (if e.src = n then [⟨e.dst, e.distance, e.blocked⟩] else []) ++
    (if e.dst = n then [⟨e.src, e.distance, e.blocked⟩] else [])

/-- `_build_adjacency_list` (lines 21-31), read at one key: the dict maps
each key to the entries appended for it in edge order, and `.get(node,
[])` yields `[]` off the populated keys. -/
def buildAdj (edges : List Edge) (n : ℕ) : List AdjEntry :=
  edges.foldl (fun acc e => acc ++ edgeEntries n e) []

/-- A priority-queue entry `(dist, node, path)`. -/
structure PQE where
  dist : ℚ
  node : ℕ
  path : List ℕ
deriving DecidableEq

/-- Lexicographic `<` on `List ℕ` (Python list comparison). -/
def listLtNat : List ℕ → List ℕ → Bool
  | [], [] => false
  | [], _ :: _ => true
  | _ :: _, [] => false
  | a :: as, b :: bs =>
    if a < b then true else if b < a then false else listLtNat as bs

/-- Python tuple `<` on `(dist, node, path)`. -/
def entryLt (x y : PQE) : Bool :=
  if x.dist < y.dist then true
  else if y.dist < x.dist then false
  else if x.node < y.node then true
  else if y.node < x.node then false
  else listLtNat x.path y.path

/-- `heappop`: the minimum entry of `m :: l` together with the rest. -/
def popMin (m : PQE) : List PQE → PQE × List PQE
  | [] => (m, [])
  | x :: xs =>
    if entryLt x m then
      match popMin x xs with
      | (mn, rest) => (mn, m :: rest)
    else
      match popMin m xs with
      | (mn, rest) => (mn, x :: rest)

/-- The two `continue` filters of the neighbor loop (lines 54-57). -/
def allowEntry (avoid : Bool) (visited : List ℕ) (a : AdjEntry) : Bool :=
  decide (a.nbr ∉ visited) && !(avoid && a.blocked)

/-- Entries pushed while settling `m` (lines 53-58); `visited` already
contains `m.node`. -/
def relaxEntries (avoid : Bool) (m : PQE) (visited : List ℕ)
    (as : List AdjEntry) : List PQE :=
  (as.filter (allowEntry avoid visited)).map
    (fun a => ⟨m.dist + a.dist, a.nbr, m.path ++ [a.nbr]⟩)

/-- The `while pq` loop of `_find_path_dijkstra` (lines 43-60) with
explicit fuel; `none` is fuel exhaustion (never reached from `planRoute`),
`some none` is Python's `return None`, `some (some p)` is `return path`.
The source adds the node to `visited` before the `node == end` test; the
reordering here is observationally equal since a hit returns at once. -/
def dijkstraLoop (adj : ℕ → List AdjEntry) (endN : ℕ) (avoid : Bool) :
    ℕ → List PQE → List ℕ → Option (Option (List ℕ))
  | 0, _, _ => none
  | _ + 1, [], _ => some none
  | fuel + 1, p :: ps, visited =>
    match popMin p ps with
    | (m, rest) =>
      if m.node ∈ visited then dijkstraLoop adj endN avoid fuel rest visited
      else if m.node = endN then some (some m.path)
      else
        dijkstraLoop adj endN avoid fuel
          (rest ++ relaxEntries avoid m (m.node :: visited) (adj m.node))
          (m.node :: visited)

/-- `_find_path_dijkstra` (lines 33-60). -/
def findPathDijkstra (adj : ℕ → List AdjEntry) (start endN : ℕ)
    (avoid : Bool) (fuel : ℕ) : Option (Option (List ℕ)) :=
  if start = endN then some (some [start])
  else dijkstraLoop adj endN avoid fuel [⟨0, start, [start]⟩] []

inductive RouteStatus
  | clear
  | blocked_route
deriving DecidableEq

/-- Fuel that provably suffices for any run on `buildAdj edges`: one for
the final empty-queue step, one for the initial entry, and two adjacency
entries per edge. -/
def dijkFuel (edges : List Edge) : ℕ := 2 + 2 * edges.length

/-- One target's route in `_plan_rescue_routes` (lines 110-118): try
avoiding blocked roads, on failure retry on the full graph. -/
def planRoute (edges : List Edge) (start endN : ℕ) :
    Option (List ℕ × RouteStatus) :=
  match findPathDijkstra (buildAdj edges) start endN true (dijkFuel edges) with
  | some (some p) => some (p, RouteStatus.clear)
  | _ =>
    match findPathDijkstra (buildAdj edges) start endN false (dijkFuel edges) with
    | some (some p) => some (p, RouteStatus.blocked_route)
    | _ => none

/-! ### Critical nodes and the rescue plan -/

/-- A critical node: id and priority score (name/type/population fields of
the Python dict are presentation only). -/
structure Crit where
  cid : ℕ
  score : ℚ
deriving DecidableEq

/-- `vulnerability * (population / 100000)` (line 77); the observation
always carries the `scenario` key, possibly `None`, and `.get(scenario,
1.0)` on the vulnerability dict yields 1.0 for `None`. -/
def baseScore (sc : Option String) (n : Node) : ℚ :=
  (match sc with
    | some s => n.vuln s
    | none => 1) * ((n.population : ℚ) / 100000)

/-- Lines 77-80: 1.5x boost for residential and public-service nodes. -/
def criticalScore (sc : Option String) (n : Node) : ℚ :=
  if n.ntype = "residential" ∨ n.ntype = "public_service" then
    baseScore sc n * 1.5
  else baseScore sc n

/-- Stable insertion of `x` into a descending-by-score list: `x` passes
over strictly larger scores only, so earlier elements win ties. -/
def insDesc (x : Crit) : List Crit → List Crit
  | [] => [x]
  | y :: ys => if x.score < y.score then y :: insDesc x ys else x :: y :: ys

/-- Stable sort by descending score.  `list.sort(key=..., reverse=True)`
is a stable descending sort, and a stable sort under a total preorder has
a unique result, so this insertion sort computes it. -/
def sortDescScore (l : List Crit) : List Crit := l.foldr insDesc []

/-- `_find_critical_nodes` (lines 62-92): affected nodes scored, sorted by
descending score (ties keep node order), top 5. -/
def findCriticalNodes (e : Env) : List Crit :=
  (sortDescScore
    ((karachiNodes.filter (fun n => decide (n.nid ∈ e.affected_nodes))).map
      (fun n => Crit.mk n.nid (criticalScore e.scen n)))).take 5

/-- One route of the plan (`path_names` and `target_name` are
presentation only). -/
structure Route where
  targetId : ℕ
  path : List ℕ
  status : RouteStatus
  prio : ℚ
deriving DecidableEq

def routeFor (edges : List Edge) (t : Crit) : Option Route :=
  (planRoute edges 26 t.cid).map (fun pr => ⟨t.cid, pr.1, pr.2, t.score⟩)

/-- `_plan_rescue_routes` (lines 94-138), reduced to its route list; the
command center is node 26 and targets with no path at all are skipped
(`if path:`). -/
structure RescuePlan where
  routes : List Route
deriving DecidableEq

def planRescueRoutes (e : Env) : RescuePlan :=
  ⟨(findCriticalNodes e).filterMap (routeFor e.edges)⟩

/-! ### GoalBasedAgent.decide (lines 140-183)

`decide` mutates `self.current_plan` and `self._last_plan_step`, so it is
modelled as a state transformer.  A generated plan dict is always truthy,
so `self.current_plan` is truthy iff it is not `None`. -/

structure GoalState where
  currentPlan : Option RescuePlan
  lastPlanStep : ℤ
deriving DecidableEq

/-- `__init__`: `current_plan = None`, `_last_plan_step = -1`. -/
def initGoalState : GoalState := ⟨none, -1⟩

/-- A `"plan"` message: its priority and the plan payload. -/
structure GIntent where
  prio : ℤ
  plan : RescuePlan
deriving DecidableEq

def goalDecide (st : GoalState) (e : Env) : GoalState × List GIntent :=
  if e.phase ≠ Phase.response then (st, [])
  else if (e.time_step : ℤ) - st.lastPlanStep < 3 ∧ st.currentPlan.isSome then
    (st, [])
  else if e.victims ≤ 0 then (st, [])
  else
    (⟨some (planRescueRoutes e), (e.time_step : ℤ)⟩,
      [⟨if e.roads_blocked then 8 else 6, planRescueRoutes e⟩])

/-! ### DroneReconAgent (`drone_recon_agent.py`)

The scanned set is kept as a list with set-membership semantics; the
iteration order of Python's `list(unscanned)` is implementation defined,
so it is supplied as an oracle `ord` (any function re-ordering the
unscanned list). -/

structure DroneState where
  scanned : List ℕ
  reconDone : Bool
  reconStart : ℤ
deriving DecidableEq

/-- `__init__` and also the reset of lines 29-33. -/
def initDroneState : DroneState := ⟨[], false, -1⟩

def SCAN_RADIUS : ℤ := 2

inductive DIntent
  | recon_done (totalScanned : ℕ) (prio : ℤ)
  | recon (nodesScanned : List ℕ) (prio : ℤ)
deriving DecidableEq

/-- Lines 36-37: record the step recon started on. -/
def droneStart (st : DroneState) (t : ℤ) : DroneState :=
  if st.reconStart < 0 then { st with reconStart := t } else st

/-- The response-phase body of `DroneReconAgent.decide` (lines 35-76). -/
def droneRespond (ord : List ℕ → List ℕ) (st0 : DroneState) (e : Env) :
    DroneState × List DIntent :=
  let st := droneStart st0 (e.time_step : ℤ)
  let drones := e.resources ResName.drones
  if drones ≤ 0 then (st, [])
  else
    let unscanned := e.affected_nodes.filter (fun n => decide (n ∉ st.scanned))
    if unscanned.isEmpty ∧ e.affected_nodes ≠ [] then
      if st.reconDone then (st, [])
      else ({ st with reconDone := true },
        [DIntent.recon_done st.scanned.length 8])
    else
      let toScan := (ord unscanned).take (drones * SCAN_RADIUS).toNat
      if toScan.isEmpty then (st, []) else (st, [DIntent.recon toScan 7])

/-- `DroneReconAgent.decide` (lines 22-76): outside the response phase all
three state fields are reset (lines 29-33). -/
def droneDecide (ord : List ℕ → List ℕ) (st : DroneState) (e : Env) :
    DroneState × List DIntent :=
  if e.phase ≠ Phase.response then (initDroneState, [])
  else droneRespond ord st e

/-- The scanned-set update of `act` (lines 86-92) for one decision. -/
def droneApply (st : DroneState) (d : DIntent) : DroneState :=
  match d with
  | DIntent.recon ns _ =>
      { st with scanned := st.scanned ++ ns.filter (fun n => decide (n ∉ st.scanned)) }
  | _ => st

/-- `DroneReconAgent.act` (lines 78-95): decide, then fold the scanned-set
updates over the emitted decisions. -/
def droneAct (ord : List ℕ → List ℕ) (st : DroneState) (e : Env) :
    DroneState × List DIntent :=
  match droneDecide ord st e with
  | (st1, ds) => (ds.foldl droneApply st1, ds)

/-! ## Claim C8: phase-scoped agent state

`DroneReconAgent.decide` does reset its state outside the response phase,
but `GoalBasedAgent.decide` returns early (line 148) without touching
`current_plan` or `_last_plan_step`, so the goal agent's state survives
phase changes; and the replan gate (line 151) compares against the stale
`_last_plan_step`, so after a re-trigger (which restarts `time_step` at 0)
the first response tick can be skipped even though victims > 0. -/

/-- **C8** (amended): outside the response phase the drone agent resets
all three state fields while the goal agent keeps its state unchanged,
and within the response phase the goal agent replans at most every 3
ticks: it skips whenever a plan exists and fewer than 3 ticks have
passed since `_last_plan_step`, and otherwise (with victims > 0) replans
and records the current tick. -/
theorem c8_phase_scoped_state (ord : List ℕ → List ℕ) (gst : GoalState)
    (dst : DroneState) (e : Env) :
    (e.phase ≠ Phase.response → droneAct ord dst e = (initDroneState, [])) ∧
    (e.phase ≠ Phase.response → goalDecide gst e = (gst, [])) ∧
    (e.phase = Phase.response → (e.time_step : ℤ) - gst.lastPlanStep < 3 →
      gst.currentPlan.isSome → goalDecide gst e = (gst, [])) ∧
    (e.phase = Phase.response →
      ¬ ((e.time_step : ℤ) - gst.lastPlanStep < 3 ∧ gst.currentPlan.isSome) →
      0 < e.victims →
      goalDecide gst e =
        (⟨some (planRescueRoutes e), (e.time_step : ℤ)⟩,
          [⟨if e.roads_blocked then 8 else 6, planRescueRoutes e⟩])) := by
  refine ⟨fun h => ?_, fun h => ?_, fun h1 h2 h3 => ?_, fun h1 h2 h3 => ?_⟩
  · show (match droneDecide ord dst e with
      | (st1, ds) => (ds.foldl droneApply st1, ds)) = _
    unfold droneDecide
    rw [if_pos h]
    rfl
  · unfold goalDecide
    rw [if_pos h]
  · unfold goalDecide
    rw [if_neg (not_not_intro h1), if_pos ⟨h2, h3⟩]
  · unfold goalDecide
    rw [if_neg (not_not_intro h1), if_neg h2, if_neg (not_le.mpr h3)]

theorem c8_phase_scoped_state_witness :
    (initEnv.phase ≠ Phase.response) ∧
      droneAct (fun l => l) ⟨[5], true, 3⟩ initEnv = (initDroneState, []) ∧
      goalDecide ⟨none, 2⟩ initEnv = (⟨none, 2⟩, []) :=
  ⟨by decide,
    (c8_phase_scoped_state (fun l => l) ⟨none, 2⟩ ⟨[5], true, 3⟩
      initEnv).1 (by decide),
    (c8_phase_scoped_state (fun l => l) ⟨none, 2⟩ ⟨[5], true, 3⟩
      initEnv).2.1 (by decide)⟩

/-- The goal-agent state after its plan on the first response tick. -/
def c8St1 : GoalState := (goalDecide initGoalState c3Env1).1

/-- A fresh response phase re-triggered from the rebuild-phase state. -/
def c8Env4 : Env := triggerDisaster "earthquake" 1 none ceTriggerRand c3Env3

set_option maxRecDepth 8000 in
/-- Claim C8 is falsified as stated: the goal agent's plan state is not
reset on the rebuild tick, and because of the stale `_last_plan_step` the
first tick of the next (re-triggered) response phase emits no plan even
though victims > 0 — not "always on the first opportunity". -/
theorem c8_reset_counterexample :
    Reachable c8Env4 ∧
      c3Env3.phase = Phase.rebuild ∧
      c8St1 = (goalDecide initGoalState c3Env1).1 ∧
      c8St1.currentPlan.isSome = true ∧
      c8St1.lastPlanStep = 0 ∧
      goalDecide c8St1 c3Env3 = (c8St1, []) ∧
      c8Env4.phase = Phase.response ∧ c8Env4.time_step = 0 ∧
      0 < c8Env4.victims ∧
      goalDecide c8St1 c8Env4 = (c8St1, []) :=
  ⟨Reachable.trigger c3Env3 "earthquake" 1 none ceTriggerRand
      c3Env3_reachable ceTriggerRand_wf,
    by with_unfolding_all decide, rfl,
    by with_unfolding_all decide, by with_unfolding_all decide,
    by with_unfolding_all rfl, rfl, rfl,
    by with_unfolding_all decide, by with_unfolding_all rfl⟩

/-! ## Claim C4: Dijkstra shortest-path correctness

`PathC adj avoid start p z c` says `p` is a walk of the adjacency
structure from `start` to `z` of summed cost `c`, using only entries that
pass the `avoid_blocked` filter — exactly the walks the algorithm's pushed
entries trace.  `DInv` is the classical Dijkstra invariant with a ghost
map `D` of settled distances. -/

inductive PathC (adj : ℕ → List AdjEntry) (avoid : Bool) (start : ℕ) :
    List ℕ → ℕ → ℚ → Prop
  | base : PathC adj avoid start [start] start 0
  | snoc {p : List ℕ} {u : ℕ} {c : ℚ} {a : AdjEntry} :
      PathC adj avoid start p u c → a ∈ adj u → (avoid && a.blocked) = false →
      PathC adj avoid start (p ++ [a.nbr]) a.nbr (c + a.dist)

def NonNegAdj (adj : ℕ → List AdjEntry) : Prop :=
  ∀ n, ∀ a ∈ adj n, 0 ≤ a.dist

theorem pathC_nonneg (adj : ℕ → List AdjEntry) (avoid : Bool) (start : ℕ)
    (hnn : NonNegAdj adj) {p : List ℕ} {z : ℕ} {c : ℚ}
    (h : PathC adj avoid start p z c) : 0 ≤ c := by
  induction h with
  | base => exact le_refl 0
  | snoc hp ha hall ih =>
    have := hnn _ _ ha
    linarith

theorem entryLt_false_le (x y : PQE) (h : entryLt x y = false) :
    y.dist ≤ x.dist := by
  by_contra hc
  unfold entryLt at h
  rw [if_pos (not_le.mp hc)] at h
  exact absurd h (by decide)

theorem entryLt_true_le (x y : PQE) (h : entryLt x y = true) :
    x.dist ≤ y.dist := by
  by_contra hc
  unfold entryLt at h
  rw [if_neg (not_lt.mpr (le_of_lt (not_le.mp hc))), if_pos (not_le.mp hc)] at h
  exact absurd h (by decide)

/-- Unfolding of `popMin` on a cons, the match expressed via projections. -/
theorem popMin_cons (m x : PQE) (xs : List PQE) :
    popMin m (x :: xs) =
      if entryLt x m then ((popMin x xs).1, m :: (popMin x xs).2)
      else ((popMin m xs).1, x :: (popMin m xs).2) := by
  rcases hx : popMin x xs with ⟨a, b⟩
  rcases hm : popMin m xs with ⟨c, d⟩
  rw [popMin, hx, hm]

/-- `heappop` returns a permutation: the original queue is the popped
minimum plus the rest. -/
theorem popMin_perm (m : PQE) (l : List PQE) :
    List.Perm (m :: l) ((popMin m l).1 :: (popMin m l).2) := by
  induction l generalizing m with
  | nil => exact List.Perm.refl _
  | cons x xs ih =>
    rw [popMin_cons]
    by_cases h : entryLt x m
    · rw [if_pos h]
      exact ((ih x).cons m).trans (List.Perm.swap (popMin x xs).1 m _)
    · rw [if_neg h]
      exact ((List.Perm.swap x m xs).trans ((ih m).cons x)).trans
        (List.Perm.swap (popMin m xs).1 x _)

/-- `heappop` returns a minimum-distance entry. -/
theorem popMin_le (m : PQE) (l : List PQE) :
    ∀ x ∈ m :: l, (popMin m l).1.dist ≤ x.dist := by
  induction l generalizing m with
  | nil =>
    intro x hx
    rcases List.mem_cons.mp hx with h | h
    · subst h; exact le_refl _
    · exact absurd h (List.not_mem_nil x)
  | cons y ys ih =>
    intro x hx
    rw [popMin_cons]
    by_cases h : entryLt y m
    · rw [if_pos h]
      rcases List.mem_cons.mp hx with h1 | h1
      · rw [h1]
        exact le_trans (ih y y (List.mem_cons_self y ys)) (entryLt_true_le y m h)
      · exact ih y x h1
    · rw [if_neg h]
      have hf : entryLt y m = false := by
        revert h; cases entryLt y m <;> simp
      rcases List.mem_cons.mp hx with h1 | h1
      · rw [h1]
        exact ih m m (List.mem_cons_self m ys)
      · rcases List.mem_cons.mp h1 with h2 | h2
        · rw [h2]
          exact le_trans (ih m m (List.mem_cons_self m ys))
            (entryLt_false_le y m hf)
        · exact ih m x (List.mem_cons.mpr (Or.inr h2))

theorem allowEntry_iff (avoid : Bool) (vis : List ℕ) (a : AdjEntry) :
    allowEntry avoid vis a = true ↔
      a.nbr ∉ vis ∧ (avoid && a.blocked) = false := by
  unfold allowEntry
  cases avoid && a.blocked <;> simp

theorem relaxEntries_mem {avoid : Bool} {m : PQE} {vis : List ℕ}
    {as : List AdjEntry} {x : PQE} (hx : x ∈ relaxEntries avoid m vis as) :
    ∃ a ∈ as, (avoid && a.blocked) = false ∧ a.nbr ∉ vis ∧
      x = ⟨m.dist + a.dist, a.nbr, m.path ++ [a.nbr]⟩ := by
  rcases List.mem_map.mp hx with ⟨a, haf, hxa⟩
  rcases List.mem_filter.mp haf with ⟨ha, hal⟩
  rcases (allowEntry_iff avoid vis a).mp hal with ⟨hn, hb⟩
  exact ⟨a, ha, hb, hn, hxa.symm⟩

theorem relaxEntries_mem_of {avoid : Bool} {m : PQE} {vis : List ℕ}
    {as : List AdjEntry} {a : AdjEntry} (ha : a ∈ as)
    (hall : (avoid && a.blocked) = false) (hn : a.nbr ∉ vis) :
    (⟨m.dist + a.dist, a.nbr, m.path ++ [a.nbr]⟩ : PQE) ∈
      relaxEntries avoid m vis as :=
  List.mem_map.mpr ⟨a,
    List.mem_filter.mpr ⟨ha, (allowEntry_iff _ _ _).mpr ⟨hn, hall⟩⟩, rfl⟩

/-- The Dijkstra loop invariant, with a ghost map `D` of settled
distances: queue entries trace real walks; the start is settled or
covered by a zero-cost entry; settled nodes carry optimal distances;
every allowed edge out of the settled region into an unsettled node is
covered by a queue entry; the target is not yet settled. -/
structure DInv (adj : ℕ → List AdjEntry) (avoid : Bool) (start endN : ℕ)
    (pq : List PQE) (visited : List ℕ) (D : ℕ → ℚ) : Prop where
  entries : ∀ m ∈ pq, PathC adj avoid start m.path m.node m.dist
  startCov : start ∈ visited ∨ ∃ m ∈ pq, m.node = start ∧ m.dist ≤ 0
  settledOpt : ∀ v ∈ visited, ∀ p c, PathC adj avoid start p v c → D v ≤ c
  relaxCov : ∀ v ∈ visited, ∀ a ∈ adj v, (avoid && a.blocked) = false →
    a.nbr ∉ visited → ∃ m ∈ pq, m.node = a.nbr ∧ m.dist ≤ D v + a.dist
  endNot : endN ∉ visited

/-- Any walk ending outside the settled region costs at least the
minimum queue distance. -/
theorem dinv_pop_le {adj : ℕ → List AdjEntry} {avoid : Bool}
    {start endN : ℕ} {pq : List PQE} {visited : List ℕ} {D : ℕ → ℚ}
    (hnn : NonNegAdj adj)
    (hinv : DInv adj avoid start endN pq visited D)
    (m0 : PQE) (hmin : ∀ x ∈ pq, m0.dist ≤ x.dist) :
    ∀ p z c, PathC adj avoid start p z c → z ∉ visited → m0.dist ≤ c := by
  intro p z c hp
  induction hp with
  | base =>
    intro hz
    rcases hinv.startCov with h | ⟨m', hm', hnode, hdist⟩
    · exact absurd h hz
    · exact le_trans (hmin m' hm') hdist
  | @snoc p' u c' a hp ha hall ih =>
    intro hz
    by_cases hu : u ∈ visited
    · rcases hinv.relaxCov u hu a ha hall hz with ⟨m', hm', _, hdist⟩
      exact le_trans (hmin m' hm')
        (le_trans hdist (add_le_add_right (hinv.settledOpt u hu p' c' hp) _))
    · exact le_trans (ih hu) (le_add_of_nonneg_right (hnn u a ha))

/-- With an empty queue there is no walk out of the settled region. -/
theorem dinv_empty {adj : ℕ → List AdjEntry} {avoid : Bool}
    {start endN : ℕ} {visited : List ℕ} {D : ℕ → ℚ}
    (hinv : DInv adj avoid start endN [] visited D) :
    ∀ p z c, PathC adj avoid start p z c → z ∉ visited → False := by
  intro p z c hp
  induction hp with
  | base =>
    intro hz
    rcases hinv.startCov with h | ⟨m', hm', _, _⟩
    · exact hz h
    · exact absurd hm' (List.not_mem_nil m')
  | @snoc p' u c' a hp ha hall ih =>
    intro hz
    by_cases hu : u ∈ visited
    · rcases hinv.relaxCov u hu a ha hall hz with ⟨m', hm', _, _⟩
      exact absurd hm' (List.not_mem_nil m')
    · exact ih hu

/-- Unfolding of one loop iteration over the popped minimum. -/
theorem dijkstraLoop_cons (adj : ℕ → List AdjEntry) (endN : ℕ)
    (avoid : Bool) (fuel : ℕ) (p : PQE) (ps : List PQE) (visited : List ℕ)
    (m : PQE) (rest : List PQE) (h : popMin p ps = (m, rest)) :
    dijkstraLoop adj endN avoid (fuel + 1) (p :: ps) visited =
      if m.node ∈ visited then dijkstraLoop adj endN avoid fuel rest visited
      else if m.node = endN then some (some m.path)
      else dijkstraLoop adj endN avoid fuel
        (rest ++ relaxEntries avoid m (m.node :: visited) (adj m.node))
        (m.node :: visited) := by
  simp only [dijkstraLoop, h]

/-- Loop correctness: from any invariant state, a `some (some p)` result
is a genuine minimal-cost walk to the target and a `some none` result
means no walk to the target exists.  (A `none` result is fuel
exhaustion, handled separately.) -/
theorem dijkstraLoop_correct (adj : ℕ → List AdjEntry) (avoid : Bool)
    (start endN : ℕ) (hnn : NonNegAdj adj) :
    ∀ (fuel : ℕ) (pq : List PQE) (visited : List ℕ) (D : ℕ → ℚ),
      DInv adj avoid start endN pq visited D →
      (∀ p, dijkstraLoop adj endN avoid fuel pq visited = some (some p) →
        ∃ c, PathC adj avoid start p endN c ∧
          ∀ q c', PathC adj avoid start q endN c' → c ≤ c') ∧
      (dijkstraLoop adj endN avoid fuel pq visited = some none →
        ∀ q c', ¬ PathC adj avoid start q endN c') := by
  intro fuel
  induction fuel with
  | zero =>
    intro pq visited D hinv
    constructor
    · intro p hp
      simp [dijkstraLoop] at hp
    · intro hp
      simp [dijkstraLoop] at hp
  | succ fuel ih =>
    intro pq visited D hinv
    rcases pq with _ | ⟨p, ps⟩
    · constructor
      · intro q hq
        simp [dijkstraLoop] at hq
      · intro _ q c' hq
        exact dinv_empty hinv q endN c' hq hinv.endNot
    · rcases hpop : popMin p ps with ⟨m, rest⟩
      have hperm : List.Perm (p :: ps) (m :: rest) := by
        have h := popMin_perm p ps
        rwa [hpop] at h
      have hmem : ∀ x ∈ m :: rest, x ∈ p :: ps := fun x hx =>
        hperm.symm.subset hx
      have hmin : ∀ x ∈ p :: ps, m.dist ≤ x.dist := by
        have h := popMin_le p ps
        rwa [hpop] at h
      rw [dijkstraLoop_cons adj endN avoid fuel p ps visited m rest hpop]
      by_cases hv : m.node ∈ visited
      · rw [if_pos hv]
        apply ih rest visited D
        refine ⟨?_, ?_, hinv.settledOpt, ?_, hinv.endNot⟩
        · exact fun x hx =>
            hinv.entries x (hmem x (List.mem_cons.mpr (Or.inr hx)))
        · rcases hinv.startCov with h | ⟨m', hm', hnode, hdist⟩
          · exact Or.inl h
          · rcases List.mem_cons.mp (hperm.subset hm') with h1 | h1
            · exact Or.inl (by rw [← hnode, h1]; exact hv)
            · exact Or.inr ⟨m', h1, hnode, hdist⟩
        · intro v hvv a ha hall hn
          rcases hinv.relaxCov v hvv a ha hall hn with ⟨m', hm', hnode, hdist⟩
          rcases List.mem_cons.mp (hperm.subset hm') with h1 | h1
          · exact absurd (by rw [← hnode, h1]; exact hv) hn
          · exact ⟨m', h1, hnode, hdist⟩
      · rw [if_neg hv]
        have hstar := dinv_pop_le hnn hinv m (fun x hx => hmin x hx)
        by_cases he : m.node = endN
        · rw [if_pos he]
          constructor
          · intro q hq
            injection hq with h1
            injection h1 with h2
            refine ⟨m.dist, ?_, ?_⟩
            · rw [← h2]
              have h := hinv.entries m (hmem m (List.mem_cons_self m rest))
              rwa [he] at h
            · intro q' c' hqc
              exact hstar q' endN c' hqc hinv.endNot
          · intro hq
            simp at hq
        · rw [if_neg he]
          apply ih _ _ (Function.update D m.node m.dist)
          refine ⟨?_, ?_, ?_, ?_, ?_⟩
          · intro x hx
            rcases List.mem_append.mp hx with h1 | h1
            · exact hinv.entries x (hmem x (List.mem_cons.mpr (Or.inr h1)))
            · rcases relaxEntries_mem h1 with ⟨a, ha, hb, hn, hxeq⟩
              rw [hxeq]
              exact PathC.snoc
                (hinv.entries m (hmem m (List.mem_cons_self m rest))) ha hb
          · rcases hinv.startCov with h | ⟨m', hm', hnode, hdist⟩
            · exact Or.inl (List.mem_cons.mpr (Or.inr h))
            · rcases List.mem_cons.mp (hperm.subset hm') with h1 | h1
              · refine Or.inl ?_
                rw [← hnode, h1]
                exact List.mem_cons_self _ _
              · exact Or.inr ⟨m', List.mem_append.mpr (Or.inl h1),
                  hnode, hdist⟩
          · intro v hvv p'' c'' hp''
            rcases List.mem_cons.mp hvv with h1 | h1
            · rw [h1, Function.update_same]
              exact hstar p'' v c'' hp'' (h1 ▸ hv)
            · have hne : v ≠ m.node := fun hh => hv (hh ▸ h1)
              rw [Function.update_noteq hne]
              exact hinv.settledOpt v h1 p'' c'' hp''
          · intro v hvv a ha hall hn
            have hnbm : a.nbr ≠ m.node := fun hh =>
              hn (by rw [hh]; exact List.mem_cons_self _ _)
            have hn' : a.nbr ∉ visited := fun hh =>
              hn (List.mem_cons.mpr (Or.inr hh))
            rcases List.mem_cons.mp hvv with h1 | h1
            · refine ⟨⟨m.dist + a.dist, a.nbr, m.path ++ [a.nbr]⟩,
                List.mem_append.mpr (Or.inr ?_), rfl, ?_⟩
              · exact relaxEntries_mem_of (h1 ▸ ha) hall hn
              · rw [h1, Function.update_same]
            · have hne : v ≠ m.node := fun hh => hv (hh ▸ h1)
              rcases hinv.relaxCov v h1 a ha hall hn' with
                ⟨m', hm', hnode, hdist⟩
              rcases List.mem_cons.mp (hperm.subset hm') with h2 | h2
              · exact absurd (by rw [← hnode, h2]) hnbm
              · refine ⟨m', List.mem_append.mpr (Or.inl h2), hnode, ?_⟩
                rw [Function.update_noteq hne]
                exact hdist
          · intro hh
            rcases List.mem_cons.mp hh with h1 | h1
            · exact he h1.symm
            · exact hinv.endNot h1

/-! ### Fuel sufficiency

`pending` charges, for every not-yet-settled support node, the length of
its adjacency list; queue length plus pending strictly decreases each
iteration, so the fuel `dijkFuel` never runs out. -/

def pending (adj : ℕ → List AdjEntry) (support visited : List ℕ) : ℕ :=
  ((support.filter (fun n => decide (n ∉ visited))).map
    (fun n => (adj n).length)).sum

theorem pending_head (adj : ℕ → List AdjEntry) (s : ℕ)
    (ss visited : List ℕ) :
    pending adj (s :: ss) visited =
      (if s ∈ visited then 0 else (adj s).length) +
        pending adj ss visited := by
  unfold pending
  rw [List.filter_cons]
  by_cases h : s ∈ visited
  · simp [h]
  · simp [h]

theorem pending_congr (adj : ℕ → List AdjEntry) (support : List ℕ)
    (x : ℕ) (visited : List ℕ) (hx : x ∉ support) :
    pending adj support (x :: visited) = pending adj support visited := by
  unfold pending
  have hf : support.filter (fun n => decide (n ∉ x :: visited)) =
      support.filter (fun n => decide (n ∉ visited)) := by
    apply List.filter_congr
    intro a ha
    have hax : a ≠ x := fun hh => hx (hh ▸ ha)
    apply decide_eq_decide.mpr
    simp [List.mem_cons, hax]
  rw [hf]

theorem pending_insert (adj : ℕ → List AdjEntry) (x : ℕ)
    (visited : List ℕ) (hx : x ∉ visited) :
    ∀ support : List ℕ, support.Nodup → x ∈ support →
      pending adj support (x :: visited) + (adj x).length =
        pending adj support visited := by
  intro support
  induction support with
  | nil => intro _ h; exact absurd h (List.not_mem_nil x)
  | cons s ss ih =>
    intro hnd hxs
    rcases List.nodup_cons.mp hnd with ⟨hs, hnd'⟩
    rw [pending_head, pending_head]
    rcases List.mem_cons.mp hxs with h1 | h1
    · rw [← h1] at hs ⊢
      rw [if_pos (List.mem_cons_self x visited), if_neg hx,
        pending_congr adj ss x visited hs]
      omega
    · have hne : s ≠ x := fun hh => hs (hh ▸ h1)
      have hih := ih hnd' h1
      by_cases hsv : s ∈ visited
      · rw [if_pos (List.mem_cons.mpr (Or.inr hsv)), if_pos hsv]
        omega
      · rw [if_neg (fun hh => ?_), if_neg hsv]
        · omega
        · rcases List.mem_cons.mp hh with h2 | h2
          · exact hne h2
          · exact hsv h2

theorem dijkstraLoop_isSome (adj : ℕ → List AdjEntry) (endN : ℕ)
    (avoid : Bool) (support : List ℕ) (hnd : support.Nodup)
    (hs : ∀ n, n ∉ support → adj n = []) :
    ∀ (fuel : ℕ) (pq : List PQE) (visited : List ℕ),
      pq.length + pending adj support visited < fuel →
      (dijkstraLoop adj endN avoid fuel pq visited).isSome = true := by
  intro fuel
  induction fuel with
  | zero => intro pq visited h; omega
  | succ fuel ih =>
    intro pq visited h
    rcases pq with _ | ⟨p, ps⟩
    · simp [dijkstraLoop]
    · rcases hpop : popMin p ps with ⟨m, rest⟩
      have hlen : rest.length = ps.length := by
        have hperm := popMin_perm p ps
        rw [hpop] at hperm
        have h2 := hperm.length_eq
        simp at h2
        omega
      have hcons : (p :: ps).length = ps.length + 1 := by simp
      rw [dijkstraLoop_cons adj endN avoid fuel p ps visited m rest hpop]
      by_cases hv : m.node ∈ visited
      · rw [if_pos hv]
        apply ih
        omega
      · rw [if_neg hv]
        by_cases he : m.node = endN
        · rw [if_pos he]; rfl
        · rw [if_neg he]
          apply ih
          rw [List.length_append]
          have hrel : (relaxEntries avoid m (m.node :: visited)
              (adj m.node)).length ≤ (adj m.node).length := by
            unfold relaxEntries
            rw [List.length_map]
            exact List.length_filter_le _ _
          by_cases hmem : m.node ∈ support
          · have hpend := pending_insert adj m.node visited hv
              support hnd hmem
            omega
          · have hadj := hs m.node hmem
            have hpend := pending_congr adj support m.node visited hmem
            have hrel0 : relaxEntries avoid m (m.node :: visited)
                (adj m.node) = [] := by
              rw [hadj]; rfl
            rw [hrel0]
            simp only [List.length_nil]
            omega

/-! ### Properties of the built adjacency structure -/

theorem buildAdj_foldl (n : ℕ) :
    ∀ (edges : List Edge) (acc : List AdjEntry),
      List.foldl (fun acc e => acc ++ edgeEntries n e) acc edges =
        acc ++ List.foldl (fun acc e => acc ++ edgeEntries n e) [] edges := by
  intro edges
  induction edges with
  | nil => intro acc; simp
  | cons e es ih =>
    intro acc
    simp only [List.foldl_cons, List.nil_append]
    rw [ih (acc ++ edgeEntries n e), ih (edgeEntries n e), List.append_assoc]

theorem buildAdj_cons (e : Edge) (es : List Edge) (n : ℕ) :
    buildAdj (e :: es) n = edgeEntries n e ++ buildAdj es n := by
  unfold buildAdj
  simp only [List.foldl_cons, List.nil_append]
  exact buildAdj_foldl n es (edgeEntries n e)

theorem buildAdj_mem (edges : List Edge) (n : ℕ) (a : AdjEntry) :
    a ∈ buildAdj edges n ↔ ∃ e ∈ edges, a ∈ edgeEntries n e := by
  induction edges with
  | nil => simp [buildAdj]
  | cons e es ih => simp [buildAdj_cons, List.mem_append, ih]

theorem edgeEntries_dist (n : ℕ) (e : Edge) (a : AdjEntry)
    (ha : a ∈ edgeEntries n e) : a.dist = e.distance := by
  unfold edgeEntries at ha
  rcases List.mem_append.mp ha with h | h
  · by_cases hc : e.src = n
    · rw [if_pos hc] at h
      rw [List.mem_singleton.mp h]
    · rw [if_neg hc] at h
      exact absurd h (List.not_mem_nil a)
  · by_cases hc : e.dst = n
    · rw [if_pos hc] at h
      rw [List.mem_singleton.mp h]
    · rw [if_neg hc] at h
      exact absurd h (List.not_mem_nil a)

theorem buildAdj_nonneg (edges : List Edge)
    (hd : ∀ e ∈ edges, 0 ≤ e.distance) : NonNegAdj (buildAdj edges) := by
  intro n a ha
  rcases (buildAdj_mem edges n a).mp ha with ⟨e, he, hae⟩
  rw [edgeEntries_dist n e a hae]
  exact hd e he

theorem buildAdj_eq_nil (edges : List Edge) (n : ℕ)
    (h : ∀ e ∈ edges, e.src ≠ n ∧ e.dst ≠ n) : buildAdj edges n = [] := by
  induction edges with
  | nil => rfl
  | cons e es ih =>
    rw [buildAdj_cons]
    have he := h e (List.mem_cons_self e es)
    have hee : edgeEntries n e = [] := by
      unfold edgeEntries
      rw [if_neg he.1, if_neg he.2]
      rfl
    rw [hee, List.nil_append]
    exact ih (fun e' he' => h e' (List.mem_cons.mpr (Or.inr he')))

/-- The node ids that can carry a nonempty adjacency list. -/
def adjSupport (edges : List Edge) : List ℕ :=
  (edges.map Edge.src ++ edges.map Edge.dst).dedup

theorem adjSupport_nodup (edges : List Edge) : (adjSupport edges).Nodup :=
  List.nodup_dedup _

theorem buildAdj_off_support (edges : List Edge) (n : ℕ)
    (h : n ∉ adjSupport edges) : buildAdj edges n = [] := by
  apply buildAdj_eq_nil
  intro e he
  constructor
  · intro hh
    apply h
    unfold adjSupport
    rw [List.mem_dedup]
    exact List.mem_append.mpr (Or.inl (List.mem_map.mpr ⟨e, he, hh⟩))
  · intro hh
    apply h
    unfold adjSupport
    rw [List.mem_dedup]
    exact List.mem_append.mpr (Or.inr (List.mem_map.mpr ⟨e, he, hh⟩))

theorem edgeEntries_length (n : ℕ) (e : Edge) :
    (edgeEntries n e).length =
      (if e.src = n then 1 else 0) + (if e.dst = n then 1 else 0) := by
  unfold edgeEntries
  by_cases h1 : e.src = n <;> by_cases h2 : e.dst = n <;> simp [h1, h2]

theorem sum_map_add_nat (f g : ℕ → ℕ) :
    ∀ S : List ℕ, (S.map (fun n => f n + g n)).sum =
      (S.map f).sum + (S.map g).sum := by
  intro S
  induction S with
  | nil => simp
  | cons s ss ih =>
    simp only [List.map_cons, List.sum_cons, ih]
    omega

theorem sum_indicator (a : ℕ) :
    ∀ S : List ℕ, S.Nodup →
      (S.map (fun n => if a = n then (1 : ℕ) else 0)).sum =
        if a ∈ S then 1 else 0 := by
  intro S
  induction S with
  | nil => intro _; simp
  | cons s ss ih =>
    intro hnd
    rcases List.nodup_cons.mp hnd with ⟨hs, hnd'⟩
    rw [List.map_cons, List.sum_cons, ih hnd']
    by_cases h1 : a = s
    · simp [h1, hs, List.mem_cons]
    · by_cases h2 : a ∈ ss
      · simp [h1, h2, List.mem_cons]
      · simp [h1, h2, List.mem_cons]

theorem sum_edgeEntries_le (e : Edge) (S : List ℕ) (hnd : S.Nodup) :
    (S.map (fun n => (edgeEntries n e).length)).sum ≤ 2 := by
  have h1 : S.map (fun n => (edgeEntries n e).length) =
      S.map (fun n =>
        (if e.src = n then (1 : ℕ) else 0) +
          (if e.dst = n then (1 : ℕ) else 0)) := by
    apply List.map_congr_left
    intro a _
    exact edgeEntries_length a e
  rw [h1, sum_map_add_nat, sum_indicator e.src S hnd,
    sum_indicator e.dst S hnd]
  split_ifs <;> omega

theorem pending_le (edges : List Edge) (S : List ℕ) (hnd : S.Nodup) :
    pending (buildAdj edges) S [] ≤ 2 * edges.length := by
  unfold pending
  have hfil : S.filter (fun n => decide (n ∉ ([] : List ℕ))) = S := by
    apply List.filter_eq_self.mpr
    intro a _
    simp
  rw [hfil]
  induction edges with
  | nil =>
    have hz : S.map (fun n => (buildAdj [] n).length) =
        S.map (fun _ => (0 : ℕ)) := by
      apply List.map_congr_left
      intro a _
      rfl
    simp [hz]
  | cons e es ih =>
    have hmapeq : S.map (fun n => (buildAdj (e :: es) n).length) =
        S.map (fun n =>
          (edgeEntries n e).length + (buildAdj es n).length) := by
      apply List.map_congr_left
      intro a _
      rw [buildAdj_cons, List.length_append]
    rw [hmapeq, sum_map_add_nat]
    have h1 := sum_edgeEntries_le e S hnd
    simp only [List.length_cons]
    omega

/-! ### Wrapper correctness and claim C4 -/

theorem findPathDijkstra_correct (edges : List Edge) (start endN : ℕ)
    (avoid : Bool) (hd : ∀ e ∈ edges, 0 ≤ e.distance) :
    (findPathDijkstra (buildAdj edges) start endN avoid
        (dijkFuel edges)).isSome = true ∧
    (∀ p, findPathDijkstra (buildAdj edges) start endN avoid
        (dijkFuel edges) = some (some p) →
      ∃ c, PathC (buildAdj edges) avoid start p endN c ∧
        ∀ q c', PathC (buildAdj edges) avoid start q endN c' → c ≤ c') ∧
    (findPathDijkstra (buildAdj edges) start endN avoid
        (dijkFuel edges) = some none →
      ∀ q c', ¬ PathC (buildAdj edges) avoid start q endN c') := by
  have hnn := buildAdj_nonneg edges hd
  unfold findPathDijkstra
  by_cases hse : start = endN
  · rw [if_pos hse]
    refine ⟨rfl, ?_, ?_⟩
    · intro p hp
      injection hp with h1
      injection h1 with h2
      refine ⟨0, ?_, ?_⟩
      · rw [← h2, ← hse]
        exact PathC.base
      · intro q c' hq
        exact pathC_nonneg _ _ _ hnn hq
    · intro hp
      simp at hp
  · rw [if_neg hse]
    have hinv : DInv (buildAdj edges) avoid start endN
        [⟨0, start, [start]⟩] [] (fun _ => 0) := by
      refine ⟨?_, ?_, ?_, ?_, ?_⟩
      · intro m hm
        rw [List.mem_singleton.mp hm]
        exact PathC.base
      · exact Or.inr ⟨⟨0, start, [start]⟩, List.mem_singleton.mpr rfl,
          rfl, le_refl 0⟩
      · intro v hv
        exact absurd hv (List.not_mem_nil v)
      · intro v hv
        exact absurd hv (List.not_mem_nil v)
      · exact List.not_mem_nil endN
    have hcor := dijkstraLoop_correct (buildAdj edges) avoid start endN hnn
      (dijkFuel edges) [⟨0, start, [start]⟩] [] (fun _ => 0) hinv
    refine ⟨?_, hcor.1, hcor.2⟩
    apply dijkstraLoop_isSome (buildAdj edges) endN avoid
      (adjSupport edges) (adjSupport_nodup edges)
      (fun n hn => buildAdj_off_support edges n hn)
    have hp := pending_le edges (adjSupport edges) (adjSupport_nodup edges)
    have hlen : ([(⟨0, start, [start]⟩ : PQE)]).length = 1 := rfl
    unfold dijkFuel
    omega

theorem planRoute_eq_clear {edges : List Edge} {start endN : ℕ}
    {p : List ℕ}
    (h : findPathDijkstra (buildAdj edges) start endN true
      (dijkFuel edges) = some (some p)) :
    planRoute edges start endN = some (p, RouteStatus.clear) := by
  unfold planRoute
  rw [h]

theorem planRoute_eq_blocked {edges : List Edge} {start endN : ℕ}
    {p : List ℕ}
    (hT : findPathDijkstra (buildAdj edges) start endN true
      (dijkFuel edges) = some none)
    (hF : findPathDijkstra (buildAdj edges) start endN false
      (dijkFuel edges) = some (some p)) :
    planRoute edges start endN = some (p, RouteStatus.blocked_route) := by
  unfold planRoute
  rw [hT, hF]

theorem planRoute_eq_none {edges : List Edge} {start endN : ℕ}
    (hT : findPathDijkstra (buildAdj edges) start endN true
      (dijkFuel edges) = some none)
    (hF : findPathDijkstra (buildAdj edges) start endN false
      (dijkFuel edges) = some none) :
    planRoute edges start endN = none := by
  unfold planRoute
  rw [hT, hF]

set_option maxHeartbeats 800000 in
/-- **C4**: on any snapshot with non-negative edge distances, a `clear`
route is a minimal-cost walk of the blocked-avoiding adjacency structure
from `start` to `endN`; a `blocked_route` means no blocked-avoiding walk
exists at all and the returned path is a minimal-cost walk of the full
structure; no route at all means the target is unreachable even ignoring
blocking. -/
theorem c4_dijkstra_shortest (edges : List Edge) (start endN : ℕ)
    (hd : ∀ e ∈ edges, 0 ≤ e.distance) :
    (∀ p, planRoute edges start endN = some (p, RouteStatus.clear) →
      ∃ c, PathC (buildAdj edges) true start p endN c ∧
        ∀ q c', PathC (buildAdj edges) true start q endN c' → c ≤ c') ∧
    (∀ p, planRoute edges start endN = some (p, RouteStatus.blocked_route) →
      (∀ q c', ¬ PathC (buildAdj edges) true start q endN c') ∧
      ∃ c, PathC (buildAdj edges) false start p endN c ∧
        ∀ q c', PathC (buildAdj edges) false start q endN c' → c ≤ c') ∧
    (planRoute edges start endN = none →
      ∀ q c', ¬ PathC (buildAdj edges) false start q endN c') := by
  obtain ⟨hT1, hT2, hT3⟩ := findPathDijkstra_correct edges start endN true hd
  obtain ⟨hF1, hF2, hF3⟩ := findPathDijkstra_correct edges start endN false hd
  rcases hT : findPathDijkstra (buildAdj edges) start endN true
      (dijkFuel edges) with _ | rT
  · rw [hT] at hT1
    simp at hT1
  · rcases rT with _ | pT
    · rcases hF : findPathDijkstra (buildAdj edges) start endN false
          (dijkFuel edges) with _ | rF
      · rw [hF] at hF1
        simp at hF1
      · rcases rF with _ | pF
        · have hpl := planRoute_eq_none hT hF
          refine ⟨?_, ?_, ?_⟩
          · intro p hp
            rw [hpl] at hp
            exact absurd hp (by simp)
          · intro p hp
            rw [hpl] at hp
            exact absurd hp (by simp)
          · intro _
            exact hF3 hF
        · have hpl := planRoute_eq_blocked hT hF
          refine ⟨?_, ?_, ?_⟩
          · intro p hp
            rw [hpl] at hp
            injection hp with h1
            injection h1 with h2 h3
            exact absurd h3 (by simp)
          · intro p hp
            rw [hpl] at hp
            injection hp with h1
            injection h1 with h2 h3
            refine ⟨hT3 hT, ?_⟩
            rw [← h2]
            exact hF2 pF hF
          · intro hp
            rw [hpl] at hp
            exact absurd hp (by simp)
    · have hpl := planRoute_eq_clear hT
      refine ⟨?_, ?_, ?_⟩
      · intro p hp
        rw [hpl] at hp
        injection hp with h1
        injection h1 with h2 h3
        rw [← h2]
        exact hT2 pT hT
      · intro p hp
        rw [hpl] at hp
        injection hp with h1
        injection h1 with h2 h3
        exact absurd h3 (by simp)
      · intro hp
        rw [hpl] at hp
        exact absurd hp (by simp)

set_option maxRecDepth 8000 in
theorem c4_dijkstra_shortest_witness :
    (∀ e ∈ karachiEdges, 0 ≤ e.distance) ∧
      planRoute karachiEdges 26 1 = some ([26, 0, 1], RouteStatus.clear) ∧
      (∀ p, planRoute karachiEdges 26 1 = some (p, RouteStatus.clear) →
        ∃ c, PathC (buildAdj karachiEdges) true 26 p 1 c ∧
          ∀ q c', PathC (buildAdj karachiEdges) true 26 q 1 c' → c ≤ c') :=
  ⟨by with_unfolding_all decide, by with_unfolding_all decide,
    (c4_dijkstra_shortest karachiEdges 26 1
      (by with_unfolding_all decide)).1⟩
